import Mathlib

/-!
Verification development for the aether-build incremental build/serve engine.

The definitions below are a shallow embedding of the TypeScript sources:
  - src/plugins.ts        (plugin pipeline: applyPluginHook)
  - src/utils/dependency.ts (dependency resolver: resolveModuleSpecifier,
                             resolveWithExtensions, processDependencies)
  - src/build.ts          (build orchestrator: resolveEntryPoints, processFile,
                             writeOutputs, build)
  - src/server.ts         (dev server: handleRequest transform chain, watcher
                             change handler, hasAcceptedUpdate, notifyClients)
  - src/hmr/client.ts     (HMR client: hot context accept/decline, updateModules)

Node built-ins (path manipulation, the filesystem, timestamps, sockets) are
external collaborators of the engine; they are modelled by small executable
Lean functions (for path functions) and by explicit environment values (a
finite list of files for the filesystem, a numeric timestamp, a list of
client connections).  Asynchronous effects are sequentialized exactly as the
source awaits them; hook side effects are made observable through explicit
event lists.
-/

namespace AetherBuild

/-! ## String primitives

The JS string operations the engine relies on (startsWith, endsWith,
includes, split, first-occurrence replace, slice), implemented over the
character list of a `String` so that every definition in this development
evaluates by kernel reduction. -/

/-- JS String.startsWith. -/
def strStarts (s p : String) : Bool := p.data.isPrefixOf s.data

/-- JS String.endsWith. -/
def strEnds (s p : String) : Bool := p.data.isSuffixOf s.data

/-- JS String.includes for a single-character needle. -/
def strHasChar (s : String) (c : Char) : Bool := s.data.contains c

/-- Drop a prefix of the length of the first list from the second list. -/
def dropPre : List Char → List Char → List Char
  | [], l => l
  | _ :: _, [] => []
  | _ :: ps, _ :: xs => dropPre ps xs

/-- Substring containment (JS String.includes). -/
def strHasSub (s sub : String) : Bool := go sub.data s.data
where
  go (needle : List Char) : List Char → Bool
    | [] => needle.isPrefixOf []
    | x :: xs => needle.isPrefixOf (x :: xs) || go needle xs

/-- JS String.replace with a string pattern: replace the first occurrence
of the pattern, or return the string unchanged when absent. -/
def strReplaceFirst (s pat rep : String) : String :=
  String.mk (go pat.data rep.data s.data)
where
  go (p r : List Char) : List Char → List Char
    | [] => []
    | x :: xs =>
      if !p.isEmpty && p.isPrefixOf (x :: xs) then r ++ dropPre p (x :: xs)
      else x :: go p r xs

/-- Split a character list on a separator character. -/
def splitChar (c : Char) : List Char → List (List Char)
  | [] => [[]]
  | x :: xs =>
    let r := splitChar c xs
    if x = c then [] :: r
    else
      match r with
      | [] => [[x]]
      | h :: t => (x :: h) :: t

/-- Split a string on a separator character (JS String.split). -/
def strSplit (s : String) (c : Char) : List String :=
  (splitChar c s.data).map String.mk

/-- Join strings with a separator (inverse of strSplit). -/
def joinSep (sep : String) : List String → String
  | [] => ""
  | [s] => s
  | s :: rest => s ++ sep ++ joinSep sep rest

/-- Drop the first n characters (JS String.slice n). -/
def strDrop (s : String) (n : Nat) : String := String.mk (s.data.drop n)

/-- Drop the last n characters. -/
def strDropRight (s : String) (n : Nat) : String :=
  String.mk (s.data.take (s.data.length - n))

/-- Lower-case a single ASCII character. -/
def toLowerChar (c : Char) : Char :=
  if 65 ≤ c.toNat && c.toNat ≤ 90 then Char.ofNat (c.toNat + 32) else c

/-- JS String.toLowerCase (ASCII). -/
def strToLower (s : String) : String := String.mk (s.data.map toLowerChar)

/-! ## Model of node:path (external collaborator of the engine) -/

/-- A path is absolute when it starts with a slash (posix model). -/
def isAbsolutePath (p : String) : Bool := strStarts p "/"

/-- Collapse "segment/.." pairs, posix-normalization as performed by
node's path.join on absolute paths. -/
def collapseDots (segs : List String) : List String :=
  segs.foldl (fun acc s => if s = ".." then acc.dropLast else acc ++ [s]) []

/-- Model of node path.join for the paths the engine manipulates: concatenate
with a slash and normalize empty, "." and ".." segments. -/
def joinPath (a b : String) : String :=
  let raw := a ++ "/" ++ b
  let segs := (strSplit raw '/').filter (fun s => s ≠ "" && s ≠ ".")
  let segs := collapseDots segs
  let tail := joinSep "/" segs
  if isAbsolutePath raw then "/" ++ tail else tail

/-- Model of node path.dirname: everything before the final slash. -/
def dirname (p : String) : String :=
  let parts := strSplit p '/'
  if parts.length ≤ 1 then "."
  else
    let d := joinSep "/" parts.dropLast
    if d = "" then "/" else d

/-- Model of node path.resolve with a single relative segment against an
absolute working directory, as used by resolveEntryPoints and the server. -/
def resolvePath (cwd p : String) : String :=
  if isAbsolutePath p then p else joinPath cwd p

/-- Model of node path.relative for a target lying under the base directory
(the only shape produced by the build orchestrator). -/
def relativeTo (base p : String) : String :=
  if strStarts p (base ++ "/") then strDrop p (base.data.length + 1) else p

/-- Model of node path.extname: the final dot-suffix of the basename. -/
def extName (p : String) : String :=
  let base := ((strSplit p '/').getLast?).getD p
  match strSplit base '.' with
  | [] => ""
  | [_] => ""
  | first :: rest =>
    if first = "" && rest.length = 1 then ""
    else "." ++ (rest.getLast?).getD ""

/-! ## Association-list helpers (model of JS Map / plain-object lookup) -/

/-- Lookup in an association list (JS Map.get). -/
def lookupAssoc {α : Type} (l : List (String × α)) (k : String) : Option α :=
  (l.find? (fun kv => kv.1 == k)).map (·.2)

/-- JS Map.set: replace in place when the key exists, append otherwise. -/
def setAssoc {α : Type} (l : List (String × α)) (k : String) (v : α) :
    List (String × α) :=
  if (l.find? (fun kv => kv.1 == k)).isSome then
    l.map (fun kv => if kv.1 = k then (k, v) else kv)
  else l ++ [(k, v)]

/-! ## Filesystem model (node:fs as used through utils/file.ts) -/

/-- The filesystem visible to the engine: a finite list of (path, content). -/
structure FileSys where
  files : List (String × String)

/-- fileExists / existsSync on the modelled filesystem. -/
def fileExists (fs : FileSys) (p : String) : Bool :=
  ((fs.files.find? (fun kv => kv.1 == p))).isSome

/-- readFile (readFileSync) on the modelled filesystem. -/
def readFileFS (fs : FileSys) (p : String) : String :=
  (((fs.files.find? (fun kv => kv.1 == p))).map (·.2)).getD ""

/-! ## Plugin model (src/plugins.ts)

A hook either throws (modelled as `Except.error`), returns null/undefined
(`Except.ok none`) or returns a value (`Except.ok (some v)`).  Effect-only
hooks are modelled by their observable behaviour for the one context they
receive during a session: absent (`none`), or present with their outcome. -/

/-- The transform hook context (interface BuildContext in plugins.ts). -/
structure TransformCtx where
  filePath : String
  content : String
  code : String
  map : Option String
deriving DecidableEq, Repr

/-- A transform hook returns a plain string or a `{ code, map }` object. -/
inductive TransformRet where
  | str (s : String)
  | obj (code : String) (map : Option String)
deriving DecidableEq, Repr

/-- The resolveId hook context (interface ResolveContext in plugins.ts). -/
structure ResolveCtx where
  importer : String
  source : String
deriving DecidableEq, Repr

/-- A plugin (interface Plugin in plugins.ts), restricted to the hooks the
core engine exercises.  Value hooks are functions; effect-only hooks are
modelled by their outcome for this session's single invocation context. -/
structure Plugin where
  name : String
  buildStart : Option (Except String Unit)
  transform : Option (TransformCtx → Except String (Option TransformRet))
  resolveId : Option (ResolveCtx → Option String)
  buildEnd : Option (Except String Unit)
  closeBundle : Option (Except String Unit)
  watchChange : Option (Except String Unit)
  handleHotUpdate : Option (Except String Unit)

/-- A plugin with all hooks absent, for building concrete examples. -/
def emptyPlugin (nm : String) : Plugin :=
  ⟨nm, none, none, none, none, none, none, none⟩

/-- An error escaping applyPluginHook, tagged (by the catch clause's log)
with the offending plugin's name and the hook name. -/
structure HookError where
  plugin : String
  hook : String
  msg : String
deriving DecidableEq, Repr

/-- The view applyPluginHook has of a plugin once the dynamic
`plugin[hookName]` lookup is done: a name and an optional hook function. -/
structure HookedPlugin (α β : Type) where
  name : String
  hook : Option (α → Except String (Option β))

/-- The sequential loop of applyPluginHook (plugins.ts lines 81-94), with the
running `result` accumulator.  Alongside the returned value it reports the
names of the plugins whose hook was actually invoked, in invocation order. -/
def applyPluginHookGo {α β : Type} (hookName : String) (ctx : α) :
    List (HookedPlugin α β) → Option β → Except HookError (Option β) × List String
  | [], result => (.ok result, [])
  | p :: rest, result =>
    match p.hook with
    | none => applyPluginHookGo hookName ctx rest result
    | some h =>
      match h ctx with
      | .error e => (.error ⟨p.name, hookName, e⟩, [p.name])
      | .ok v =>
        let newResult := match v with | none => result | some x => some x
        let r := applyPluginHookGo hookName ctx rest newResult
        (r.1, p.name :: r.2)

/-- applyPluginHook (plugins.ts lines 74-97): invoke the named hook on each
plugin in list order, skipping plugins without the hook; a non-null return
value overwrites the running result; a throwing hook aborts the whole call. -/
def applyPluginHook {α β : Type} (plugins : List (HookedPlugin α β))
    (hookName : String) (ctx : α) : Except HookError (Option β) × List String :=
  applyPluginHookGo hookName ctx plugins none

/-! ## Dependency resolver (src/utils/dependency.ts) -/

/-- The result of resolving one import edge. -/
structure DependencyInfo where
  id : String
  resolved : Option String
  isExternal : Bool
deriving DecidableEq, Repr

/-- Configuration slice consumed by the core (interface AetherConfig):
entry points, output root, alias table, resolution extensions, source maps,
and the working directory standing for process.cwd(). -/
inductive EntryConfig where
  | single (e : String)
  | multiple (es : List String)
  | named (es : List (String × String))
  | invalid
deriving DecidableEq, Repr

structure Config where
  entry : EntryConfig
  outDir : String
  aliasTable : List (String × String)
  extensions : Option (List String)
  sourcemap : Bool
  cwd : String

/-- resolveWithExtensions (dependency.ts lines 117-154): try the literal
path, then the path plus each configured extension in order, then the path
as a directory with index plus each extension; first filesystem hit wins. -/
def resolveWithExtensions (fs : FileSys) (specifier basedir : String)
    (config : Config) : Option String :=
  let isAbs := isAbsolutePath specifier
  let absoluteSpecifier := if isAbs then specifier else joinPath basedir specifier
  if fileExists fs absoluteSpecifier then some absoluteSpecifier
  else
    let extensions := config.extensions.getD [".ts", ".tsx", ".js", ".jsx", ".json"]
    match extensions.find? (fun ext => fileExists fs (absoluteSpecifier ++ ext)) with
    | some ext => some (absoluteSpecifier ++ ext)
    | none =>
      match extensions.find? (fun ext =>
          fileExists fs (joinPath absoluteSpecifier ("index" ++ ext))) with
      | some ext => some (joinPath absoluteSpecifier ("index" ++ ext))
      | none => none

/-- The plugin resolveId loop of resolveModuleSpecifier (lines 95-103): ask
each plugin in order, the first truthy result wins and short-circuits. -/
def firstResolveId (plugins : List Plugin) (rctx : ResolveCtx) : Option String :=
  match plugins with
  | [] => none
  | p :: rest =>
    match p.resolveId with
    | none => firstResolveId rest rctx
    | some h =>
      match h rctx with
      | some r => if r = "" then firstResolveId rest rctx else some r
      | none => firstResolveId rest rctx

/-- True when the specifier is a URL (scheme http:, https:, or //). -/
def isUrlSpecifier (specifier : String) : Bool :=
  strStarts specifier "http:" || strStarts specifier "https:" || strStarts specifier "//"

/-- True when the specifier is bare: no leading dot or slash and no scheme. -/
def isBareSpecifier (specifier : String) : Bool :=
  !(strStarts specifier ".") && !(strStarts specifier "/") && !(strHasChar specifier ':')

/-- The alias-table test of resolveModuleSpecifier (dependency.ts line 76):
`if (config.alias && config.alias[specifier])` is a JS truthiness test, so
an entry whose value is the empty string does not count as a rewrite. -/
def aliasHit (config : Config) (specifier : String) : Option String :=
  match lookupAssoc config.aliasTable specifier with
  | some a => if a = "" then none else some a
  | none => none

/-- resolveModuleSpecifier (dependency.ts lines 53-112). -/
def resolveModuleSpecifier (fs : FileSys) (specifier importer : String)
    (config : Config) (plugins : List Plugin) : DependencyInfo :=
  if isUrlSpecifier specifier then
    { id := specifier, resolved := none, isExternal := true }
  else if isBareSpecifier specifier && (aliasHit config specifier).isNone then
    { id := specifier, resolved := none, isExternal := true }
  else
    let newId :=
      if isBareSpecifier specifier then (aliasHit config specifier).getD specifier
      else specifier
    let resolved :=
      match firstResolveId plugins { importer := importer, source := specifier } with
      | some r => some r
      | none =>
        let basedir := if importer = "" then config.cwd else dirname importer
        resolveWithExtensions fs specifier basedir config
    { id := newId, resolved := resolved, isExternal := false }

/-! ## Build orchestrator (src/build.ts) -/

/-- One build output: the final transformed code and optional source map. -/
structure Output where
  code : String
  map : Option String
deriving DecidableEq, Repr

/-- The mutable part of the BuilderContext (build.ts lines 11-19).  The
`warnings` list records console.warn calls and the `transformed` list records
every file on which the plugin transform loop was entered, making the
at-most-once processing discipline observable. -/
structure Ctx where
  outputs : List (String × Output)
  processed : List String
  dependencies : List (String × List String)
  moduleGraph : List (String × List DependencyInfo)
  warnings : List String
  transformed : List String
deriving DecidableEq, Repr

/-- The fresh context created by createBuilderContext (build.ts lines 44-57). -/
def initialCtx : Ctx := ⟨[], [], [], [], [], []⟩

/-- Record `filePath` in the importer's dependency set (build.ts lines 70-74
and 82-86); a JS Set keeps insertion order and ignores duplicates. -/
def recordDep (ctx : Ctx) (importedBy : Option String) (filePath : String) : Ctx :=
  match importedBy with
  | none => ctx
  | some imp =>
    let deps := (lookupAssoc ctx.dependencies imp).getD []
    let deps := if filePath ∈ deps then deps else deps ++ [filePath]
    { ctx with dependencies := setAssoc ctx.dependencies imp deps }

/-- A transform failure escaping processFile's per-plugin catch clause,
tagged with the offending plugin's name and the file being transformed. -/
structure TransformFailure where
  plugin : String
  filePath : String
  msg : String
deriving DecidableEq, Repr

/-- The inline transform loop of processFile (build.ts lines 98-126): thread
`code` and `map` through every plugin's transform hook; a falsy (null or
empty-string) result leaves them unchanged; a throwing hook aborts. -/
def runTransformsGo (filePath content : String) :
    List Plugin → String → Option String → Except TransformFailure (String × Option String)
  | [], code, map => .ok (code, map)
  | p :: rest, code, map =>
    match p.transform with
    | none => runTransformsGo filePath content rest code map
    | some h =>
      match h { filePath := filePath, content := content, code := code, map := map } with
      | .error e => .error ⟨p.name, filePath, e⟩
      | .ok none => runTransformsGo filePath content rest code map
      | .ok (some (.str s)) =>
        if s = "" then runTransformsGo filePath content rest code map
        else runTransformsGo filePath content rest s map
      | .ok (some (.obj c m)) =>
        runTransformsGo filePath content rest c (m.orElse (fun _ => map))

/-- Run the whole transform loop starting, as the source does, from
`code = content` and `map = undefined`. -/
def runTransforms (plugins : List Plugin) (filePath content : String) :
    Except TransformFailure (String × Option String) :=
  runTransformsGo filePath content plugins content none

/-- The build environment: the filesystem, configuration and plugin list,
plus the import-specifier extractor.  extractImports (dependency.ts lines
21-48) is regex-driven text scanning over the transformed code; the regex
machinery is abstracted as an environment function from code to the list of
extracted specifiers, which the resolver then resolves one by one. -/
structure BuildEnv where
  fs : FileSys
  config : Config
  plugins : List Plugin
  extractImports : String → List String

/-- processDependencies (dependency.ts lines 159-174): resolve every
extracted import specifier of a file against this file as importer. -/
def processDependencies (env : BuildEnv) (filePath content : String) :
    List DependencyInfo :=
  (env.extractImports content).map
    (fun spec => resolveModuleSpecifier env.fs spec filePath env.config env.plugins)

/-- The loop over a file's resolved, non-external dependencies (build.ts
lines 138-142), parameterized by the recursive visit of one dependency
(`step`): an unresolved or external edge is skipped, a failing visit aborts
the loop, and the visited context threads into the remaining edges. -/
def processDepsWith (step : Ctx → String → Option (Except TransformFailure Ctx)) :
    Ctx → List DependencyInfo → Option (Except TransformFailure Ctx)
  | ctx, [] => some (.ok ctx)
  | ctx, dep :: rest =>
    match dep.resolved, dep.isExternal with
    | some r, false =>
      if r = "" then processDepsWith step ctx rest
      else
        match step ctx r with
        | none => none
        | some (.error e) => some (.error e)
        | some (.ok ctx') => processDepsWith step ctx' rest
    | _, _ => processDepsWith step ctx rest

/-- processFile (build.ts lines 62-143), as a fuel-indexed recursion.
`none` means the fuel ran out; the fuel-sufficiency theorem below shows any
fuel above the filesystem size is enough, which is the source's termination
argument (the processed set is a cycle guard and every module the traversal
re-enters lives on the filesystem). -/
def processFile (env : BuildEnv) : Nat → Ctx → String → Option String →
    Option (Except TransformFailure Ctx)
  | 0, _, _, _ => none
  | fuel + 1, ctx, filePath, importedBy =>
    if filePath ∈ ctx.processed then
      some (.ok (recordDep ctx importedBy filePath))
    else
      let ctx1 := { ctx with processed := ctx.processed ++ [filePath] }
      let ctx2 := recordDep ctx1 importedBy filePath
      let content := if fileExists env.fs filePath then readFileFS env.fs filePath else ""
      if content = "" then
        some (.ok { ctx2 with
          warnings := ctx2.warnings ++ ["Empty or missing file: " ++ filePath] })
      else
        let ctx3 := { ctx2 with transformed := ctx2.transformed ++ [filePath] }
        match runTransforms env.plugins filePath content with
        | .error e => some (.error e)
        | .ok (code, map) =>
          let ctx4 := { ctx3 with outputs := setAssoc ctx3.outputs filePath ⟨code, map⟩ }
          let deps := processDependencies env filePath code
          let ctx5 := { ctx4 with moduleGraph := setAssoc ctx4.moduleGraph filePath deps }
          processDepsWith (fun c r => processFile env fuel c r (some filePath)) ctx5 deps

/-- The dependency loop as it runs inside processFile at a given fuel. -/
def processDeps (env : BuildEnv) (fuel : Nat) (ctx : Ctx)
    (deps : List DependencyInfo) (filePath : String) :
    Option (Except TransformFailure Ctx) :=
  processDepsWith (fun c r => processFile env fuel c r (some filePath)) ctx deps

/-- The entry-point loop of build (build.ts lines 223-225). -/
def processEntries (env : BuildEnv) (fuel : Nat) :
    Ctx → List String → Option (Except TransformFailure Ctx)
  | ctx, [] => some (.ok ctx)
  | ctx, e :: rest =>
    match processFile env fuel ctx e none with
    | none => none
    | some (.error x) => some (.error x)
    | some (.ok ctx') => processEntries env fuel ctx' rest

/-- resolveEntryPoints (build.ts lines 24-39): a string, array or object
entry configuration yields absolute entry paths; anything else throws
before any traversal begins. -/
def resolveEntryPoints (config : Config) : Except String (List String) :=
  match config.entry with
  | .single e => .ok [resolvePath config.cwd e]
  | .multiple es => .ok (es.map (resolvePath config.cwd))
  | .named es => .ok (es.map (fun kv => resolvePath config.cwd kv.2))
  | .invalid => .error "Invalid entry point configuration"

/-- Observable build effects, in the order build() performs them. -/
inductive BuildEvent where
  | buildStartHooks (invoked : List String)
  | buildEndHooks (invoked : List String) (outputsSize : Nat)
  | fileWrite (path code : String)
  | mapWrite (path : String)
  | closeBundleCall (plugin : String)
deriving DecidableEq, Repr

/-- Rewrite a source-language extension on the output path
(build.ts lines 169-172). -/
def rewriteExt (p : String) : String :=
  if strEnds p ".tsx" then strDropRight p 4 ++ ".js"
  else if strEnds p ".ts" then strDropRight p 3 ++ ".js"
  else p

/-- Does the code already carry a source-map reference comment
(build.ts line 183)? -/
def hasMapComment (code : String) : Bool :=
  strHasSub code "//# sourceMappingURL="

/-- The writes performed for one output entry of writeOutputs
(build.ts lines 157-188). -/
def writeOneOutput (config : Config) (fo : String × Output) : List BuildEvent :=
  let relPath := relativeTo config.cwd fo.1
  let outputPath := joinPath (resolvePath config.cwd config.outDir) relPath
  let finalPath := rewriteExt outputPath
  let writeCode := [BuildEvent.fileWrite finalPath fo.2.code]
  match fo.2.map, config.sourcemap with
  | some _, true =>
    let mapPath := finalPath ++ ".map"
    let evs := writeCode ++ [BuildEvent.mapWrite mapPath]
    if hasMapComment fo.2.code then evs
    else evs ++ [BuildEvent.fileWrite finalPath
      (fo.2.code ++ "\n//# sourceMappingURL=" ++ relativeTo (dirname finalPath) mapPath)]
  | _, _ => writeCode

/-- writeOutputs (build.ts lines 148-189) as its sequence of filesystem
writes: each output goes to the output root at the module's project-relative
path with source extensions rewritten; with a map and source maps enabled a
sibling map file is written and a reference comment appended when absent. -/
def writeOutputs (config : Config) (ctx : Ctx) : List BuildEvent :=
  (ctx.outputs.map (writeOneOutput config)).flatten

/-- The closeBundle loop of build (build.ts lines 248-252): call closeBundle
on each plugin that defines it, in order; a throwing hook aborts the loop. -/
def closeBundleAll : List Plugin → Except (String × String) (List BuildEvent)
  | [] => .ok []
  | p :: rest =>
    match p.closeBundle with
    | none => closeBundleAll rest
    | some (.error e) => .error (p.name, e)
    | some (.ok _) => (closeBundleAll rest).map
        (fun evs => BuildEvent.closeBundleCall p.name :: evs)

/-- Adapt a plugin's effect-only hook to the applyPluginHook shape: a void
hook returns undefined, which the pipeline treats as no value. -/
def effectHooks (plugins : List Plugin) (sel : Plugin → Option (Except String Unit)) :
    List (HookedPlugin Unit Unit) :=
  plugins.map (fun p =>
    ⟨p.name, (sel p).map (fun res _ => res.map (fun _ => (none : Option Unit)))⟩)

/-- The ways a build() call can fail. -/
inductive BuildFailure where
  | invalidEntry (msg : String)
  | hookFailed (e : HookError)
  | transformFailed (e : TransformFailure)
deriving DecidableEq, Repr

/-- build (build.ts lines 212-253): resolve the entry points (fatal when
invalid), run buildStart, traverse every entry point, run buildEnd with the
full outputs map, materialize the outputs, and finally run closeBundle on
each plugin that defines it. -/
def build (env : BuildEnv) (fuel : Nat) :
    Option (Except BuildFailure (Ctx × List BuildEvent)) :=
  match resolveEntryPoints env.config with
  | .error msg => some (.error (.invalidEntry msg))
  | .ok entryPoints =>
    match applyPluginHook (effectHooks env.plugins (·.buildStart)) "buildStart" () with
    | (.error e, _) => some (.error (.hookFailed e))
    | (.ok _, startNames) =>
      match processEntries env fuel initialCtx entryPoints with
      | none => none
      | some (.error e) => some (.error (.transformFailed e))
      | some (.ok ctx) =>
        match applyPluginHook (effectHooks env.plugins (·.buildEnd)) "buildEnd" () with
        | (.error e, _) => some (.error (.hookFailed e))
        | (.ok _, endNames) =>
          match closeBundleAll env.plugins with
          | .error pe => some (.error (.hookFailed ⟨pe.1, "closeBundle", pe.2⟩))
          | .ok closeEvents =>
            some (.ok (ctx,
              BuildEvent.buildStartHooks startNames ::
              BuildEvent.buildEndHooks endNames ctx.outputs.length ::
              (writeOutputs env.config ctx ++ closeEvents)))

/-! ## Dev server (src/server.ts) -/

/-- The wire payload (interface HMRPayload); JSON.stringify omits absent
fields, so a payload is exactly its present fields. -/
structure HMRPayload where
  type : String
  path : Option String
  timestamp : Option Nat
  modules : Option (List String)
  message : Option String
  stack : Option String
deriving DecidableEq, Repr

/-- The `{type:"reload"}` payload, carrying no other fields. -/
def reloadPayload : HMRPayload :=
  { type := "reload", path := none, timestamp := none, modules := none,
    message := none, stack := none }

/-- hasAcceptedUpdate (server.ts lines 275-279): the reference stub accepts
exactly the script-like extensions matched by /\.(js|mjs|ts|jsx|tsx)$/. -/
def hasAcceptedUpdate (path : String) : Bool :=
  strEnds path ".js" || strEnds path ".mjs" || strEnds path ".ts" ||
    strEnds path ".jsx" || strEnds path ".tsx"

/-- getAffectedModules (server.ts lines 264-270): the documented stub
returns no modules beyond the changed file itself. -/
def getAffectedModules (_path : String) : List String := []

/-- The plugin-notification loop of the change handler (server.ts lines
228-239): for each plugin run watchChange then handleHotUpdate; a rejected
hook aborts the handler before any broadcast. -/
def notifyPluginsOfChange : List Plugin → Except (String × String) Unit
  | [] => .ok ()
  | p :: rest =>
    match p.watchChange with
    | some (.error e) => .error (p.name, e)
    | _ =>
      match p.handleHotUpdate with
      | some (.error e) => .error (p.name, e)
      | _ => notifyPluginsOfChange rest

/-- The watcher change handler (server.ts lines 220-258): after notifying
plugins, a change to a path with a script-like extension broadcasts an
update naming the changed path plus the (stub) affected modules and the
timestamp; any other change broadcasts a bare reload. -/
def onFileChange (plugins : List Plugin) (timestamp : Nat) (path : String) :
    Except (String × String) HMRPayload :=
  match notifyPluginsOfChange plugins with
  | .error e => .error e
  | .ok _ =>
    if hasAcceptedUpdate path then
      .ok { type := "update", path := some path, timestamp := some timestamp,
            modules := some (path :: getAffectedModules path),
            message := none, stack := none }
    else
      .ok reloadPayload

/-- One client connection of the server-owned set. -/
structure ClientConn where
  id : Nat
  readyStateOpen : Bool
deriving DecidableEq, Repr

/-- notifyClients (server.ts lines 284-292): send the serialized payload to
every connection whose socket is open. -/
def notifyClients (clients : List ClientConn) (payload : HMRPayload) :
    List (Nat × HMRPayload) :=
  (clients.filter (·.readyStateOpen)).map (fun c => (c.id, payload))

/-- File extension to MIME type mapping (server.ts lines 11-28). -/
def mimeTypes : List (String × String) :=
  [(".html", "text/html"), (".js", "application/javascript"),
   (".mjs", "application/javascript"), (".css", "text/css"),
   (".json", "application/json"), (".png", "image/png"),
   (".jpg", "image/jpeg"), (".jpeg", "image/jpeg"), (".gif", "image/gif"),
   (".svg", "image/svg+xml"), (".ico", "image/x-icon"),
   (".txt", "text/plain"), (".ts", "application/javascript"),
   (".tsx", "application/javascript"), (".jsx", "application/javascript"),
   (".map", "application/json")]

/-- The request-time transform loop of handleRequest (server.ts lines
183-199): every plugin's transform is applied in sequence, each receiving
the previous plugin's output as its input code (starting from the file
content), with map passed as undefined on every call; a falsy result leaves
the running code unchanged. -/
def applyServeTransform (p : Plugin) (filePath content code : String) :
    Except TransformFailure String :=
  match p.transform with
  | none => .ok code
  | some h =>
    match h { filePath := filePath, content := content, code := code, map := none } with
    | .error e => .error ⟨p.name, filePath, e⟩
    | .ok none => .ok code
    | .ok (some (.str s)) => if s = "" then .ok code else .ok s
    | .ok (some (.obj c _)) => .ok c

def serveChain (plugins : List Plugin) (filePath content : String) (start : String) :
    Except TransformFailure String :=
  match plugins with
  | [] => .ok start
  | p :: rest =>
    match applyServeTransform p filePath content start with
    | .error e => .error e
    | .ok next => serveChain rest filePath content next

/-- An HTTP response of the dev server. -/
structure HttpResponse where
  status : Nat
  contentType : String
  body : String
deriving DecidableEq, Repr

/-- handleRequest (server.ts lines 121-209) for a plain GET of a
project-relative pathname (the reserved HMR endpoint aside): map the URL
path to a file (directories to their index document; extensionless misses
to the root index document; other misses to 404), inject the HMR client
script tag into HTML, and run script-like files through the sequential
transform chain.  The server's plugin list has the HMR plugin first. -/
def handleRequest (fs : FileSys) (cwd : String) (plugins : List Plugin)
    (pathname : String) : Except TransformFailure HttpResponse :=
  let pathname1 := if strEnds pathname "/" then pathname ++ "index.html" else pathname
  let filePath := resolvePath cwd (strDrop pathname1 1)
  let indexPath := joinPath cwd "index.html"
  let missing := !fileExists fs filePath
  if missing && !(extName pathname = "" && fileExists fs indexPath) then
    .ok { status := 404, contentType := "text/plain", body := "404 Not Found" }
  else
    let filePath := if missing then indexPath else filePath
    let content := readFileFS fs filePath
    let ext := strToLower (extName filePath)
    let contentType := (lookupAssoc mimeTypes ext).getD "application/octet-stream"
    let finalContent :=
      if contentType = "text/html" then
        strReplaceFirst content "</head>"
          "<script type=\"module\" src=\"/__aether_hmr_client\"></script></head>"
      else content
    if ext = ".ts" || ext = ".tsx" || ext = ".jsx" then
      match serveChain plugins filePath content finalContent with
      | .error e => .error e
      | .ok transformed =>
        .ok { status := 200, contentType := contentType, body := transformed }
    else
      .ok { status := 200, contentType := contentType, body := finalContent }

/-! ## HMR client runtime (src/hmr/client.ts) -/

/-- Client-side runtime state: the hot-module registry (module identity to
registered accept callbacks, callbacks named by opaque tokens) and the
dispose/prune registry. -/
structure ClientState where
  hotModules : List (String × List Nat)
  pruneCbs : List (String × Nat)
deriving DecidableEq, Repr

/-- Observable actions of the HMR client. -/
inductive ClientEvent where
  | hotFetch (url : String)
  | callbackRun (path : String) (cb : Nat)
  | pageReload
deriving DecidableEq, Repr

/-- createHotContext registration (client.ts lines 182-188): ensure the
owner has an entry in the hot-module registry. -/
def ensureHotModule (st : ClientState) (ownerPath : String) : ClientState :=
  if (lookupAssoc st.hotModules ownerPath).isSome then st
  else { st with hotModules := st.hotModules ++ [(ownerPath, [])] }

/-- hot.accept (client.ts lines 192-196): push the callback onto the
owner's callback list. -/
def hotAccept (st : ClientState) (ownerPath : String) (cb : Option Nat) : ClientState :=
  match cb with
  | none => st
  | some c =>
    { st with hotModules := (st.hotModules.map
        (fun kv => if kv.1 = ownerPath then (kv.1, kv.2 ++ [c]) else kv)) }

/-- hot.decline (client.ts lines 206-209): delete the owner from the
hot-module registry, marking it not hot-updatable. -/
def hotDecline (st : ClientState) (ownerPath : String) : ClientState :=
  { st with hotModules := st.hotModules.filter (fun kv => kv.1 ≠ ownerPath) }

/-- updateModules (client.ts lines 134-159) for one named module: a module
absent from the registry, or present with no callbacks, is skipped; else the
module is re-fetched with a cache-busting query and every callback runs; a
failing fetch/callback sequence forces a full page reload.  `fetchOk` models
whether the dynamic import and callbacks of a URL succeed. -/
def updateOneModule (fetchOk : String → Bool) (st : ClientState)
    (path : String) (timestamp : Nat) : List ClientEvent :=
  match lookupAssoc st.hotModules path with
  | none => []
  | some callbacks =>
    if callbacks.length > 0 then
      let url := path ++ "?t=" ++ toString timestamp
      if fetchOk url then
        ClientEvent.hotFetch url :: callbacks.map (ClientEvent.callbackRun path)
      else [ClientEvent.hotFetch url, ClientEvent.pageReload]
    else []

/-- updateModules (client.ts lines 134-159): process each named module. -/
def updateModules (fetchOk : String → Bool) (st : ClientState)
    (modules : List String) (timestamp : Nat) : List ClientEvent :=
  (modules.map (fun p => updateOneModule fetchOk st p timestamp)).flatten

/-- handleMessage (client.ts lines 100-129) for update and reload payloads:
an update with a nonempty modules list runs updateModules; a reload reloads
the page unconditionally. -/
def handleMessage (fetchOk : String → Bool) (st : ClientState) (now : Nat)
    (payload : HMRPayload) : List ClientEvent :=
  if payload.type = "update" then
    match payload.modules with
    | some ms =>
      if ms.length > 0 then updateModules fetchOk st ms (payload.timestamp.getD now)
      else []
    | none => []
  else if payload.type = "reload" then [ClientEvent.pageReload]
  else []

/-! ## Characterizations of the plugin pipeline -/

/-- The values returned by the defined hooks that produced one, in plugin
list order. -/
def hookValues {α β : Type} (plugins : List (HookedPlugin α β)) (ctx : α) : List β :=
  plugins.filterMap (fun p =>
    match p.hook with
    | some h =>
      match h ctx with
      | .ok (some v) => some v
      | _ => none
    | none => none)

/-- The names of the plugins that define the hook, in list order. -/
def definedHookNames {α β : Type} (plugins : List (HookedPlugin α β)) : List String :=
  (plugins.filter (fun p => p.hook.isSome)).map (·.name)

/-- Every defined hook returns (possibly null) rather than throwing. -/
def HooksSucceed {α β : Type} (plugins : List (HookedPlugin α β)) (ctx : α) : Prop :=
  ∀ p ∈ plugins, ∀ h, p.hook = some h → ∃ v, h ctx = Except.ok v

/-- Folding a value list into a running last-wins result. -/
def lastWins {β : Type} (acc : Option β) : List β → Option β
  | [] => acc
  | v :: rest => lastWins (some v) rest

/-! ## Characterizations of the dependency resolver -/

/-- The probe sequence of resolveWithExtensions, in probing order: the
literal path, then the path with each configured extension, then the path
as a directory with index plus each extension. -/
def probeCandidates (specifier basedir : String) (config : Config) : List String :=
  let absoluteSpecifier :=
    if isAbsolutePath specifier then specifier else joinPath basedir specifier
  let extensions := config.extensions.getD [".ts", ".tsx", ".js", ".jsx", ".json"]
  absoluteSpecifier :: (extensions.map (fun ext => absoluteSpecifier ++ ext)
    ++ extensions.map (fun ext => joinPath absoluteSpecifier ("index" ++ ext)))

/-- The truthy answers of the plugins' resolveId hooks, in plugin order. -/
def pluginAnswers (plugins : List Plugin) (rctx : ResolveCtx) : List String :=
  plugins.filterMap (fun p =>
    match p.resolveId with
    | some h =>
      match h rctx with
      | some r => if r = "" then none else some r
      | none => none
    | none => none)

/-- The base directory filesystem probing is relative to. -/
def resolverBasedir (importer : String) (config : Config) : String :=
  if importer = "" then config.cwd else dirname importer

/-! ## Invariants of the build traversal -/

/-- The number of filesystem paths the traversal has not yet processed;
the fuel measure of processFile. -/
def unprocessedCount (env : BuildEnv) (ctx : Ctx) : Nat :=
  ((env.fs.files.map Prod.fst).filter (fun p => !(decide (p ∈ ctx.processed)))).length

/-- The build-session invariant: no identity is processed, transformed or
given an output twice, and transform runs and outputs only happen to
processed identities. -/
def Inv (ctx : Ctx) : Prop :=
  ctx.processed.Nodup ∧ ctx.transformed.Nodup ∧ (ctx.outputs.map Prod.fst).Nodup ∧
    (∀ p, p ∈ ctx.transformed → p ∈ ctx.processed) ∧
    (∀ p, p ∈ ctx.outputs.map Prod.fst → p ∈ ctx.processed)

/-- What one (successful) traversal step guarantees: the processed set only
grows and the session invariant is preserved. -/
def StepOk (a b : Ctx) : Prop :=
  (∀ x, x ∈ a.processed → x ∈ b.processed) ∧ (Inv a → Inv b)

/-- The write events produced for a map-free output list: exactly one file
write per output, at the rewritten output path. -/
def simpleWriteEvents (config : Config) (ctx : Ctx) : List BuildEvent :=
  ctx.outputs.map (fun fo =>
    BuildEvent.fileWrite
      (rewriteExt (joinPath (resolvePath config.cwd config.outDir)
        (relativeTo config.cwd fo.1))) fo.2.code)

/-- The closeBundle calls expected for an error-free plugin list: one call
per plugin that defines the hook, in list order. -/
def closeCalls (plugins : List Plugin) : List BuildEvent :=
  (plugins.filter (fun p => p.closeBundle.isSome)).map
    (fun p => BuildEvent.closeBundleCall p.name)

/-! ## Concrete fixtures used by the witnesses -/

/-- A hooked plugin returning a fixed answer, for pipeline examples. -/
def valuePlugin (nm : String) (r : Except String (Option Nat)) : HookedPlugin Unit Nat :=
  ⟨nm, some (fun _ => r)⟩

/-- A plugin whose transform appends a marker to the running code. -/
def appendPlugin (nm marker : String) : Plugin :=
  { emptyPlugin nm with
    transform := some (fun tc => Except.ok (some (TransformRet.str (tc.code ++ marker)))) }

/-- A plugin whose transform throws. -/
def throwingPlugin (nm msg : String) : Plugin :=
  { emptyPlugin nm with transform := some (fun _ => Except.error msg) }

/-- A plugin defining only closeBundle, successfully. -/
def closingPlugin (nm : String) : Plugin :=
  { emptyPlugin nm with closeBundle := some (Except.ok ()) }

/-- Example project: index.ts imports util.ts, which imports nothing. -/
def exFs : FileSys :=
  ⟨[("/proj/index.ts", "import util from ./util"),
    ("/proj/util.ts", "export const x = 1")]⟩

def exCfg : Config :=
  ⟨EntryConfig.single "index.ts", "./dist", [], none, false, "/proj"⟩

/-- Specifier extraction for the example sources (the regex scan modelled
as a lookup on the two known file contents). -/
def exExtract (code : String) : List String :=
  if code = "import util from ./util" then ["./util"] else []

def exEnv : BuildEnv := ⟨exFs, exCfg, [], exExtract⟩

/-- Cyclic project: a.ts and b.ts import each other. -/
def cycFs : FileSys :=
  ⟨[("/proj/a.ts", "import b from ./b"), ("/proj/b.ts", "import a from ./a")]⟩

def cycCfg : Config :=
  ⟨EntryConfig.single "a.ts", "./dist", [], none, false, "/proj"⟩

def cycExtract (code : String) : List String :=
  if code = "import b from ./b" then ["./b"]
  else if code = "import a from ./a" then ["./a"]
  else []

def cycEnv : BuildEnv := ⟨cycFs, cycCfg, [], cycExtract⟩

/-- Project with two configured entry points of which one is missing on
disk (the resolver only resolves existing files, so a missing module is
reached through an entry point or a plugin-resolved path). -/
def missFs : FileSys := ⟨[("/proj/index.ts", "export const ok = 1")]⟩

def missCfg : Config :=
  ⟨EntryConfig.multiple ["index.ts", "gone.ts"], "./dist", [], none, false, "/proj"⟩

def missEnv : BuildEnv := ⟨missFs, missCfg, [], fun _ => []⟩

/-- The example project built with a throwing transform plugin. -/
def errEnv : BuildEnv := ⟨exFs, exCfg, [throwingPlugin "bad" "boom"], exExtract⟩

/-- The example project with an invalid entry-point configuration. -/
def invEnv : BuildEnv :=
  ⟨exFs, ⟨EntryConfig.invalid, "./dist", [], none, false, "/proj"⟩, [], exExtract⟩

/-- The example project with a closeBundle-defining plugin. -/
def closeEnv : BuildEnv := ⟨exFs, exCfg, [closingPlugin "cl"], exExtract⟩

/-- The example configuration with an alias table holding one entry with an
empty (falsy) value and one with a truthy value. -/
def aliasCfg : Config :=
  ⟨EntryConfig.single "index.ts", "./dist",
    [("lodash", ""), ("util-pkg", "/proj/util")], none, false, "/proj"⟩

/-! ## Theorems -/

theorem lastWins_eq_or {β : Type} (l : List β) :
    ∀ acc, lastWins acc l = l.getLast?.or acc := by
  induction l with
  | nil => intro acc; simp [lastWins]
  | cons v rest ih =>
    intro acc
    rw [lastWins, ih (some v)]
    cases h : rest.getLast? with
    | some w => simp [List.getLast?_cons, h, Option.or]
    | none =>
      have : rest = [] := by
        cases rest with
        | nil => rfl
        | cons a t => simp [List.getLast?_cons] at h
      subst this; simp [Option.or]

theorem hooksSucceed_of_cons {α β : Type} {p : HookedPlugin α β}
    {rest : List (HookedPlugin α β)} {ctx : α}
    (h : HooksSucceed (p :: rest) ctx) : HooksSucceed rest ctx :=
  fun q hq => h q (List.mem_cons_of_mem _ hq)

theorem applyPluginHookGo_ok {α β : Type} (hn : String) (ctx : α) :
    ∀ (plugins : List (HookedPlugin α β)), HooksSucceed plugins ctx → ∀ acc,
      applyPluginHookGo hn ctx plugins acc =
        (Except.ok (lastWins acc (hookValues plugins ctx)), definedHookNames plugins) := by
  intro plugins
  induction plugins with
  | nil =>
    intro _ acc
    simp [applyPluginHookGo, hookValues, definedHookNames, lastWins]
  | cons p rest ih =>
    intro hok acc
    have hrest := hooksSucceed_of_cons hok
    cases hp : p.hook with
    | none =>
      simp only [applyPluginHookGo, hp, hookValues, definedHookNames,
        List.filterMap_cons, List.filter_cons]
      simp [hp, ih hrest acc, hookValues, definedHookNames]
    | some h =>
      obtain ⟨v, hv⟩ := hok p (List.mem_cons_self p rest) h hp
      cases v with
      | none =>
        simp only [applyPluginHookGo, hp, hv]
        simp only [hookValues, definedHookNames, List.filterMap_cons,
          List.filter_cons, hp, hv]
        simp [ih hrest acc, hookValues, definedHookNames]
      | some x =>
        simp only [applyPluginHookGo, hp, hv]
        simp only [hookValues, definedHookNames, List.filterMap_cons,
          List.filter_cons, hp, hv]
        simp [ih hrest (some x), hookValues, definedHookNames, lastWins]

theorem applyPluginHookGo_err {α β : Type} (hn : String) (ctx : α) :
    ∀ (pre : List (HookedPlugin α β)) (nm : String)
      (h : α → Except String (Option β)) (e : String)
      (post : List (HookedPlugin α β)) (acc : Option β),
      HooksSucceed pre ctx → h ctx = Except.error e →
      applyPluginHookGo hn ctx (pre ++ ⟨nm, some h⟩ :: post) acc =
        (Except.error ⟨nm, hn, e⟩, definedHookNames pre ++ [nm]) := by
  intro pre
  induction pre with
  | nil =>
    intro nm h e post acc _ he
    simp [applyPluginHookGo, he, definedHookNames]
  | cons p rest ih =>
    intro nm h e post acc hok he
    have hrest := hooksSucceed_of_cons hok
    cases hp : p.hook with
    | none =>
      simp only [List.cons_append, applyPluginHookGo, hp]
      simp [ih nm h e post acc hrest he, definedHookNames, List.filter_cons, hp]
    | some g =>
      obtain ⟨v, hv⟩ := hok p (List.mem_cons_self p rest) g hp
      cases v with
      | none =>
        simp only [List.cons_append, applyPluginHookGo, hp, hv]
        simp [ih nm h e post acc hrest he, definedHookNames, List.filter_cons, hp]
      | some x =>
        simp only [List.cons_append, applyPluginHookGo, hp, hv]
        simp [ih nm h e post (some x) hrest he, definedHookNames, List.filter_cons, hp]

theorem hooksSucceed_nil {α β : Type} (ctx : α) :
    HooksSucceed ([] : List (HookedPlugin α β)) ctx := by
  intro p hp
  simp at hp

theorem hooksSucceed_cons {α β : Type} {p : HookedPlugin α β}
    {rest : List (HookedPlugin α β)} {ctx : α}
    (hp : ∀ h, p.hook = some h → ∃ v, h ctx = Except.ok v)
    (hr : HooksSucceed rest ctx) : HooksSucceed (p :: rest) ctx := by
  intro q hq h hh
  rcases List.mem_cons.mp hq with rfl | hq'
  · exact hp h hh
  · exact hr q hq' h hh

theorem valuePlugin_ok (nm : String) (v : Option Nat) :
    ∀ h, (valuePlugin nm (Except.ok v)).hook = some h → ∃ w, h () = Except.ok w := by
  intro h hh
  injection hh with hh
  subst hh
  exact ⟨v, rfl⟩

/-- Claim C2: for every plugin list and value-returning hook name,
applyPluginHook invokes the hook on each plugin that defines it in list
order (the invocation trace is exactly the defined-hook names in order) and
returns the last non-null value any plugin returned: plugins lacking the
hook are skipped and a null/undefined return leaves the running result
unchanged, so with two value-returning plugins the second's value wins and
with only the first returning a value the first's value stands. -/
theorem C2_applyPluginHook_last_wins {α β : Type}
    (plugins : List (HookedPlugin α β)) (hookName : String) (ctx : α)
    (hok : HooksSucceed plugins ctx) :
    applyPluginHook plugins hookName ctx =
      (Except.ok (hookValues plugins ctx).getLast?, definedHookNames plugins) := by
  unfold applyPluginHook
  rw [applyPluginHookGo_ok hookName ctx plugins hok none, lastWins_eq_or]
  cases h : (hookValues plugins ctx).getLast? <;> simp [Option.or, h]

/-- Witness for C2: with P1 and P2 both returning a transform value the
result is P2's value (last wins); with only P1 returning one it is P1's;
a plugin without the hook is skipped and not invoked. -/
theorem C2_applyPluginHook_last_wins_witness :
    applyPluginHook [valuePlugin "P1" (Except.ok (some 1)),
        valuePlugin "P2" (Except.ok (some 2))] "transform" () =
      (Except.ok (some 2), ["P1", "P2"]) ∧
    applyPluginHook [valuePlugin "P1" (Except.ok (some 1)),
        valuePlugin "P2" (Except.ok none)] "transform" () =
      (Except.ok (some 1), ["P1", "P2"]) ∧
    applyPluginHook [(⟨"P0", none⟩ : HookedPlugin Unit Nat),
        valuePlugin "P1" (Except.ok (some 1))] "transform" () =
      (Except.ok (some 1), ["P1"]) := by
  refine ⟨?_, ?_, ?_⟩
  · rw [C2_applyPluginHook_last_wins _ _ _
      (hooksSucceed_cons (valuePlugin_ok "P1" (some 1))
        (hooksSucceed_cons (valuePlugin_ok "P2" (some 2)) (hooksSucceed_nil ())))]
    rfl
  · rw [C2_applyPluginHook_last_wins _ _ _
      (hooksSucceed_cons (valuePlugin_ok "P1" (some 1))
        (hooksSucceed_cons (valuePlugin_ok "P2" none) (hooksSucceed_nil ())))]
    rfl
  · rw [C2_applyPluginHook_last_wins _ _ _
      (hooksSucceed_cons (fun h hh => by simp at hh)
        (hooksSucceed_cons (valuePlugin_ok "P1" (some 1)) (hooksSucceed_nil ())))]
    rfl

/-- Claim C6: a throwing hook aborts the entire pipeline call immediately —
the result is the error tagged with the offending plugin's name and hook
name, the invocation trace stops at the offender (no later plugin's hook is
invoked, whatever follows the offender), and there is no retry; and during a
build, a transform failure in the traversal aborts the whole build() call. -/
theorem C6_hook_failure_aborts :
    (∀ (α β : Type) (hookName : String) (ctx : α)
        (pre post : List (HookedPlugin α β)) (nm : String)
        (h : α → Except String (Option β)) (e : String),
      HooksSucceed pre ctx → h ctx = Except.error e →
      applyPluginHook (pre ++ ⟨nm, some h⟩ :: post) hookName ctx =
        (Except.error ⟨nm, hookName, e⟩, definedHookNames pre ++ [nm])) ∧
    (∀ (env : BuildEnv) (fuel : Nat) (entries : List String)
        (sv : Option Unit) (sNames : List String) (e : TransformFailure),
      resolveEntryPoints env.config = Except.ok entries →
      applyPluginHook (effectHooks env.plugins (fun p => p.buildStart)) "buildStart" ()
        = (Except.ok sv, sNames) →
      processEntries env fuel initialCtx entries = some (Except.error e) →
      build env fuel = some (Except.error (BuildFailure.transformFailed e))) := by
  constructor
  · intro α β hookName ctx pre post nm h e hok he
    exact applyPluginHookGo_err hookName ctx pre nm h e post none hok he
  · intro env fuel entries sv sNames e hre hstart hpe
    unfold build
    rw [hre]
    simp only [hstart, hpe]

/-- Witness for C6: a pipeline with a throwing second hook aborts with the
plugin/hook tag without invoking the third plugin, and a build whose
transform plugin throws on the entry module fails as a whole. -/
theorem C6_hook_failure_aborts_witness :
    applyPluginHook [valuePlugin "P1" (Except.ok (some 1)),
        (⟨"bad", some (fun _ => Except.error "boom")⟩ : HookedPlugin Unit Nat),
        valuePlugin "P3" (Except.ok (some 3))] "transform" () =
      (Except.error ⟨"bad", "transform", "boom"⟩, ["P1", "bad"]) ∧
    build errEnv 5 =
      some (Except.error (BuildFailure.transformFailed
        ⟨"bad", "/proj/index.ts", "boom"⟩)) := by
  constructor
  · have h := C6_hook_failure_aborts.1 Unit Nat "transform" ()
      [valuePlugin "P1" (Except.ok (some 1))] [valuePlugin "P3" (Except.ok (some 3))]
      "bad" (fun _ => Except.error "boom") "boom"
      (hooksSucceed_cons (valuePlugin_ok "P1" (some 1)) (hooksSucceed_nil ())) rfl
    simpa using h
  · exact C6_hook_failure_aborts.2 errEnv 5 ["/proj/index.ts"] none []
      ⟨"bad", "/proj/index.ts", "boom"⟩ rfl rfl rfl

theorem resolveWithExtensions_eq_find (fs : FileSys) (specifier basedir : String)
    (config : Config) :
    resolveWithExtensions fs specifier basedir config =
      (probeCandidates specifier basedir config).find? (fileExists fs) := by
  unfold resolveWithExtensions probeCandidates
  set abs := if isAbsolutePath specifier then specifier else joinPath basedir specifier
  set exts := config.extensions.getD [".ts", ".tsx", ".js", ".jsx", ".json"]
  by_cases h : fileExists fs abs
  · simp [h]
  · cases h1 : exts.find? (fun ext => fileExists fs (abs ++ ext)) with
    | some e1 => simp [h, h1, Function.comp_def]
    | none =>
      cases h2 : exts.find? (fun ext => fileExists fs (joinPath abs ("index" ++ ext))) with
      | some e2 => simp [h, h1, h2, Function.comp_def, Option.or]
      | none => simp [h, h1, h2, Function.comp_def, Option.or]

theorem firstResolveId_eq_head (plugins : List Plugin) (rctx : ResolveCtx) :
    firstResolveId plugins rctx = (pluginAnswers plugins rctx).head? := by
  induction plugins with
  | nil => rfl
  | cons p rest ih =>
    unfold firstResolveId pluginAnswers
    cases hp : p.resolveId with
    | none => simpa [hp, pluginAnswers] using ih
    | some h =>
      cases hr : h rctx with
      | none => simpa [hp, hr, List.filterMap_cons, pluginAnswers] using ih
      | some r =>
        by_cases he : r = ""
        · simpa [hp, hr, he, List.filterMap_cons, pluginAnswers] using ih
        · simp [hp, hr, he, List.filterMap_cons]

/-- Claim C3: resolveModuleSpecifier applies its steps in order with the
first match winning: URL specifiers are external and unresolved; bare
specifiers the alias table does not rewrite — no entry, or an entry whose
value is empty and hence falsy under the source's truthiness test — are
external and unresolved; otherwise the result is non-external with the id
rewritten to the truthy alias value, and its resolution is the first truthy
plugin resolveId answer (short-circuiting the remaining plugins) or,
failing that, the first filesystem hit among the probe candidates — the
literal path, the path with each configured extension in order, then the
directory index files; a complete miss leaves resolved unset while staying
non-external. -/
theorem C3_resolveModuleSpecifier_cases (fs : FileSys) (specifier importer : String)
    (config : Config) (plugins : List Plugin) :
    (isUrlSpecifier specifier = true →
      resolveModuleSpecifier fs specifier importer config plugins =
        ⟨specifier, none, true⟩) ∧
    (isUrlSpecifier specifier = false → isBareSpecifier specifier = true →
      aliasHit config specifier = none →
      resolveModuleSpecifier fs specifier importer config plugins =
        ⟨specifier, none, true⟩) ∧
    (isUrlSpecifier specifier = false →
      (isBareSpecifier specifier = false ∨ (aliasHit config specifier).isSome) →
      resolveModuleSpecifier fs specifier importer config plugins =
        { id := if isBareSpecifier specifier then
                  (aliasHit config specifier).getD specifier
                else specifier,
          resolved := ((pluginAnswers plugins ⟨importer, specifier⟩).head?).or
            ((probeCandidates specifier (resolverBasedir importer config) config).find?
              (fileExists fs)),
          isExternal := false }) := by
  refine ⟨?_, ?_, ?_⟩
  · intro hu
    simp [resolveModuleSpecifier, hu]
  · intro hu hb ha
    simp [resolveModuleSpecifier, hu, hb, ha]
  · intro hu hc
    have hcond : (isBareSpecifier specifier &&
        (aliasHit config specifier).isNone) = false := by
      rcases hc with hb | ha
      · simp [hb]
      · rcases Option.isSome_iff_exists.mp ha with ⟨a, ha'⟩
        simp [ha']
    unfold resolveModuleSpecifier
    rw [firstResolveId_eq_head, resolveWithExtensions_eq_find]
    cases hh : (pluginAnswers plugins ⟨importer, specifier⟩).head? with
    | some r => simp [hu, hcond, hh, Option.or, resolverBasedir]
    | none => simp [hu, hcond, hh, Option.or, resolverBasedir]

/-- Witness for C3: the bare specifier lodash stays external and unresolved
both with no alias entry and with an alias entry whose value is the empty
string (falsy, so no rewrite); a bare specifier with a truthy alias value
continues non-external with the id rewritten; the relative specifier ./util
from /proj/index.ts probes the filesystem and resolves to /proj/util.ts
non-externally; a URL is external. -/
theorem C3_resolveModuleSpecifier_cases_witness :
    resolveModuleSpecifier exFs "lodash" "/proj/index.ts" exCfg [] =
      ⟨"lodash", none, true⟩ ∧
    resolveModuleSpecifier exFs "lodash" "/proj/index.ts" aliasCfg [] =
      ⟨"lodash", none, true⟩ ∧
    resolveModuleSpecifier exFs "util-pkg" "/proj/index.ts" aliasCfg [] =
      ⟨"/proj/util", none, false⟩ ∧
    resolveModuleSpecifier exFs "./util" "/proj/index.ts" exCfg [] =
      ⟨"./util", some "/proj/util.ts", false⟩ ∧
    resolveModuleSpecifier exFs "https://cdn.example/x.js" "/proj/index.ts" exCfg [] =
      ⟨"https://cdn.example/x.js", none, true⟩ := by
  refine ⟨?_, ?_, ?_, ?_, ?_⟩
  · exact (C3_resolveModuleSpecifier_cases exFs "lodash" "/proj/index.ts" exCfg []).2.1
      rfl rfl rfl
  · exact (C3_resolveModuleSpecifier_cases exFs "lodash" "/proj/index.ts" aliasCfg []).2.1
      rfl rfl rfl
  · have h := (C3_resolveModuleSpecifier_cases exFs "util-pkg" "/proj/index.ts"
      aliasCfg []).2.2 rfl (Or.inr rfl)
    exact h.trans (by decide)
  · have h := (C3_resolveModuleSpecifier_cases exFs "./util" "/proj/index.ts" exCfg []).2.2
      rfl (Or.inl rfl)
    exact h.trans (by decide)
  · exact (C3_resolveModuleSpecifier_cases exFs "https://cdn.example/x.js"
      "/proj/index.ts" exCfg []).1 rfl

theorem stepOk_refl (c : Ctx) : StepOk c c := ⟨fun _ hx => hx, id⟩

theorem stepOk_trans {a b c : Ctx} (h1 : StepOk a b) (h2 : StepOk b c) : StepOk a c :=
  ⟨fun x hx => h2.1 x (h1.1 x hx), fun hi => h2.2 (h1.2 hi)⟩

theorem recordDep_processed (ctx : Ctx) (imp : Option String) (fp : String) :
    (recordDep ctx imp fp).processed = ctx.processed := by
  cases imp <;> rfl

theorem recordDep_transformed (ctx : Ctx) (imp : Option String) (fp : String) :
    (recordDep ctx imp fp).transformed = ctx.transformed := by
  cases imp <;> rfl

theorem recordDep_outputs (ctx : Ctx) (imp : Option String) (fp : String) :
    (recordDep ctx imp fp).outputs = ctx.outputs := by
  cases imp <;> rfl

theorem recordDep_moduleGraph (ctx : Ctx) (imp : Option String) (fp : String) :
    (recordDep ctx imp fp).moduleGraph = ctx.moduleGraph := by
  cases imp <;> rfl

theorem recordDep_warnings (ctx : Ctx) (imp : Option String) (fp : String) :
    (recordDep ctx imp fp).warnings = ctx.warnings := by
  cases imp <;> rfl

theorem setAssoc_of_not_mem {α : Type} (l : List (String × α)) (k : String) (v : α)
    (h : ∀ kv ∈ l, kv.1 ≠ k) : setAssoc l k v = l ++ [(k, v)] := by
  unfold setAssoc
  have hf : l.find? (fun kv => kv.1 == k) = none := by
    rw [List.find?_eq_none]
    intro kv hkv
    simp [h kv hkv]
  simp [hf]

theorem nodup_snoc {a : String} {l : List String} (h : l.Nodup) (ha : a ∉ l) :
    (l ++ [a]).Nodup := by
  simp [List.nodup_append, h, ha]

theorem stepOk_recordDep (ctx : Ctx) (imp : Option String) (fp : String) :
    StepOk ctx (recordDep ctx imp fp) := by
  constructor
  · intro x hx
    rw [recordDep_processed]
    exact hx
  · intro hi
    unfold Inv at hi ⊢
    rw [recordDep_processed, recordDep_transformed, recordDep_outputs]
    exact hi

/-- StepOk for the shape every successful unprocessed-file visit takes: the
file is appended to processed, possibly to transformed, and its output is
possibly inserted. -/
theorem stepOk_mark (ctx b : Ctx) (fp : String) (v : Output)
    (hmem : fp ∉ ctx.processed)
    (hp : b.processed = ctx.processed ++ [fp])
    (ht : b.transformed = ctx.transformed ++ [fp] ∨ b.transformed = ctx.transformed)
    (ho : b.outputs = setAssoc ctx.outputs fp v ∨ b.outputs = ctx.outputs) :
    StepOk ctx b := by
  constructor
  · intro x hx
    rw [hp]
    exact List.mem_append_left _ hx
  · rintro ⟨hnP, hnT, hnO, hTP, hOP⟩
    have hTmem : fp ∉ ctx.transformed := fun hx => hmem (hTP fp hx)
    have hOmem : fp ∉ ctx.outputs.map Prod.fst := fun hx => hmem (hOP fp hx)
    have hOset : setAssoc ctx.outputs fp v = ctx.outputs ++ [(fp, v)] := by
      apply setAssoc_of_not_mem
      intro kv hkv hkv1
      exact hOmem (hkv1 ▸ List.mem_map_of_mem Prod.fst hkv)
    refine ⟨?_, ?_, ?_, ?_, ?_⟩
    · rw [hp]; exact nodup_snoc hnP hmem
    · rcases ht with ht | ht <;> rw [ht]
      · exact nodup_snoc hnT hTmem
      · exact hnT
    · rcases ho with ho | ho <;> rw [ho]
      · rw [hOset]
        simp only [List.map_append, List.map_cons, List.map_nil]
        exact nodup_snoc hnO hOmem
      · exact hnO
    · intro p hpT
      rw [hp]
      rcases ht with ht | ht <;> rw [ht] at hpT
      · rcases List.mem_append.mp hpT with hx | hx
        · exact List.mem_append_left _ (hTP p hx)
        · exact List.mem_append_right _ hx
      · exact List.mem_append_left _ (hTP p hpT)
    · intro p hpO
      rw [hp]
      rcases ho with ho | ho <;> rw [ho] at hpO
      · rw [hOset] at hpO
        simp only [List.map_append, List.map_cons, List.map_nil] at hpO
        rcases List.mem_append.mp hpO with hx | hx
        · exact List.mem_append_left _ (hOP p hx)
        · exact List.mem_append_right _ hx
      · exact List.mem_append_left _ (hOP p hpO)

theorem processDepsWith_ok
    (step : Ctx → String → Option (Except TransformFailure Ctx))
    (hstep : ∀ c r c', step c r = some (Except.ok c') → StepOk c c') :
    ∀ (deps : List DependencyInfo) (ctx r : Ctx),
      processDepsWith step ctx deps = some (Except.ok r) → StepOk ctx r := by
  intro deps
  induction deps with
  | nil =>
    intro ctx r h
    simp [processDepsWith] at h
    exact h ▸ stepOk_refl ctx
  | cons dep rest ih =>
    intro ctx r h
    unfold processDepsWith at h
    cases hres : dep.resolved with
    | none =>
      simp only [hres] at h
      exact ih ctx r h
    | some rr =>
      cases hext : dep.isExternal with
      | true =>
        simp only [hres, hext] at h
        exact ih ctx r h
      | false =>
        simp only [hres, hext] at h
        by_cases hrr : rr = ""
        · rw [if_pos hrr] at h
          exact ih ctx r h
        · rw [if_neg hrr] at h
          cases hstepv : step ctx rr with
          | none => rw [hstepv] at h; exact absurd h (by simp)
          | some res =>
            rw [hstepv] at h
            cases res with
            | error e => exact absurd h (by simp)
            | ok ctx' =>
              exact stepOk_trans (hstep ctx rr ctx' hstepv) (ih ctx' r h)

theorem processFile_ok (env : BuildEnv) :
    ∀ (fuel : Nat) (ctx : Ctx) (fp : String) (imp : Option String) (r : Ctx),
      processFile env fuel ctx fp imp = some (Except.ok r) → StepOk ctx r := by
  intro fuel
  induction fuel with
  | zero =>
    intro ctx fp imp r h
    simp [processFile] at h
  | succ n ih =>
    intro ctx fp imp r h
    rw [processFile] at h
    by_cases hmem : fp ∈ ctx.processed
    · rw [if_pos hmem] at h
      simp only [Option.some.injEq, Except.ok.injEq] at h
      subst h
      exact stepOk_recordDep ctx imp fp
    · simp only [if_neg hmem] at h
      by_cases hc : (if fileExists env.fs fp then readFileFS env.fs fp else "") = ""
      · rw [if_pos hc] at h
        simp only [Option.some.injEq, Except.ok.injEq] at h
        subst h
        apply stepOk_mark ctx _ fp ⟨"", none⟩ hmem
        · simp [recordDep_processed]
        · right; simp [recordDep_transformed]
        · right; simp [recordDep_outputs]
      · rw [if_neg hc] at h
        cases htr : runTransforms env.plugins fp
            (if fileExists env.fs fp then readFileFS env.fs fp else "") with
        | error e =>
          simp only [htr] at h
          exact absurd h (by simp)
        | ok pr =>
          obtain ⟨code, mp⟩ := pr
          simp only [htr] at h
          refine stepOk_trans ?_
            (processDepsWith_ok _ (fun c rr c' hh => ih c rr (some fp) c' hh) _ _ r h)
          apply stepOk_mark ctx _ fp ⟨code, mp⟩ hmem
          · simp [recordDep_processed]
          · left; simp [recordDep_transformed]
          · left; simp [recordDep_outputs]

theorem filter_length_mono (l : List String) (P Q : String → Bool)
    (h : ∀ x, P x = true → Q x = true) :
    (l.filter P).length ≤ (l.filter Q).length := by
  induction l with
  | nil => simp
  | cons a t ih =>
    by_cases hP : P a = true
    · simp [List.filter_cons, hP, h a hP]
      omega
    · rw [Bool.not_eq_true] at hP
      by_cases hQ : Q a = true
      · simp [List.filter_cons, hP, hQ]
        omega
      · rw [Bool.not_eq_true] at hQ
        simpa [List.filter_cons, hP, hQ] using ih

theorem filter_length_strict (l : List String) (P Q : String → Bool)
    (h : ∀ x, P x = true → Q x = true) (a : String) (ha : a ∈ l)
    (hQ : Q a = true) (hP : P a = false) :
    (l.filter P).length < (l.filter Q).length := by
  induction l with
  | nil => simp at ha
  | cons b t ih =>
    rcases List.mem_cons.mp ha with rfl | ha'
    · simp [List.filter_cons, hP, hQ]
      exact Nat.lt_succ_of_le (filter_length_mono t P Q h)
    · by_cases hPb : P b = true
      · simp [List.filter_cons, hPb, h b hPb]
        exact ih ha'
      · rw [Bool.not_eq_true] at hPb
        by_cases hQb : Q b = true
        · simp [List.filter_cons, hPb, hQb]
          exact Nat.lt_succ_of_lt (ih ha')
        · rw [Bool.not_eq_true] at hQb
          simpa [List.filter_cons, hPb, hQb] using ih ha'

theorem unprocessedCount_le (env : BuildEnv) {a b : Ctx}
    (h : ∀ x, x ∈ a.processed → x ∈ b.processed) :
    unprocessedCount env b ≤ unprocessedCount env a := by
  apply filter_length_mono
  intro x hx
  simp only [Bool.not_eq_eq_eq_not, Bool.not_true, decide_eq_false_iff_not] at hx ⊢
  exact fun hmem => hx (h x hmem)

theorem unprocessedCount_lt (env : BuildEnv) (ctx b : Ctx) (fp : String)
    (hfs : fp ∈ env.fs.files.map Prod.fst) (hnp : fp ∉ ctx.processed)
    (hp : b.processed = ctx.processed ++ [fp]) :
    unprocessedCount env b < unprocessedCount env ctx := by
  apply filter_length_strict _ _ _ _ fp hfs
  · simp [hnp]
  · simp [hp]
  · intro x hx
    simp only [Bool.not_eq_eq_eq_not, Bool.not_true, decide_eq_false_iff_not, hp] at hx ⊢
    exact fun hmem => hx (List.mem_append_left _ hmem)

theorem mem_keys_of_fileExists (fs : FileSys) (p : String)
    (h : fileExists fs p = true) : p ∈ fs.files.map Prod.fst := by
  unfold fileExists at h
  rcases Option.isSome_iff_exists.mp h with ⟨kv, hkv⟩
  have h1 : kv.1 = p := by simpa using List.find?_some hkv
  have h2 := List.mem_of_find?_eq_some hkv
  exact h1 ▸ List.mem_map_of_mem Prod.fst h2

theorem processDepsWith_total (env : BuildEnv) (fuel : Nat)
    (step : Ctx → String → Option (Except TransformFailure Ctx))
    (hsome : ∀ c rr, unprocessedCount env c < fuel → step c rr ≠ none)
    (hmono : ∀ c rr c', step c rr = some (Except.ok c') → StepOk c c') :
    ∀ (deps : List DependencyInfo) (ctx : Ctx),
      unprocessedCount env ctx < fuel → processDepsWith step ctx deps ≠ none := by
  intro deps
  induction deps with
  | nil =>
    intro ctx _
    simp [processDepsWith]
  | cons dep rest ih =>
    intro ctx hcount
    unfold processDepsWith
    cases hres : dep.resolved with
    | none =>
      simp only
      exact ih ctx hcount
    | some rr =>
      cases hext : dep.isExternal with
      | true =>
        simp only
        exact ih ctx hcount
      | false =>
        simp only
        by_cases hrr : rr = ""
        · rw [if_pos hrr]
          exact ih ctx hcount
        · rw [if_neg hrr]
          cases hstepv : step ctx rr with
          | none => exact absurd hstepv (hsome ctx rr hcount)
          | some res =>
            cases res with
            | error e => simp
            | ok ctx' =>
              have hle := unprocessedCount_le env (hmono ctx rr ctx' hstepv).1
              exact ih ctx' (Nat.lt_of_le_of_lt hle hcount)

theorem processFile_total (env : BuildEnv) :
    ∀ (fuel : Nat) (ctx : Ctx) (fp : String) (imp : Option String),
      unprocessedCount env ctx < fuel → processFile env fuel ctx fp imp ≠ none := by
  intro fuel
  induction fuel with
  | zero =>
    intro ctx fp imp hcount
    omega
  | succ n ih =>
    intro ctx fp imp hcount
    rw [processFile]
    by_cases hmem : fp ∈ ctx.processed
    · simp [hmem]
    · simp only [if_neg hmem]
      by_cases hc : (if fileExists env.fs fp then readFileFS env.fs fp else "") = ""
      · simp [hc]
      · rw [if_neg hc]
        cases htr : runTransforms env.plugins fp
            (if fileExists env.fs fp then readFileFS env.fs fp else "") with
        | error e => simp [htr]
        | ok pr =>
          obtain ⟨code, mp⟩ := pr
          simp only [htr]
          have hfe : fileExists env.fs fp = true := by
            by_contra hno
            rw [Bool.not_eq_true] at hno
            exact hc (by simp [hno])
          have hfs := mem_keys_of_fileExists env.fs fp hfe
          apply processDepsWith_total env n _
            (fun c rr hcnt => ih c rr (some fp) hcnt)
            (fun c rr c' hh => processFile_ok env n c rr (some fp) c' hh)
          calc unprocessedCount env _ < unprocessedCount env ctx := by
                apply unprocessedCount_lt env ctx _ fp hfs hmem
                simp [recordDep_processed]
            _ ≤ n := by omega

theorem processEntries_ok (env : BuildEnv) (fuel : Nat) :
    ∀ (entries : List String) (ctx r : Ctx),
      processEntries env fuel ctx entries = some (Except.ok r) → StepOk ctx r := by
  intro entries
  induction entries with
  | nil =>
    intro ctx r h
    simp [processEntries] at h
    exact h ▸ stepOk_refl ctx
  | cons e rest ih =>
    intro ctx r h
    unfold processEntries at h
    cases hf : processFile env fuel ctx e none with
    | none => rw [hf] at h; exact absurd h (by simp)
    | some res =>
      rw [hf] at h
      cases res with
      | error x => exact absurd h (by simp)
      | ok ctx' =>
        exact stepOk_trans (processFile_ok env fuel ctx e none ctx' hf) (ih ctx' r h)

theorem processEntries_total (env : BuildEnv) (fuel : Nat) :
    ∀ (entries : List String) (ctx : Ctx), unprocessedCount env ctx < fuel →
      processEntries env fuel ctx entries ≠ none := by
  intro entries
  induction entries with
  | nil =>
    intro ctx _
    simp [processEntries]
  | cons e rest ih =>
    intro ctx hcount
    unfold processEntries
    cases hf : processFile env fuel ctx e none with
    | none => exact absurd hf (processFile_total env fuel ctx e none hcount)
    | some res =>
      cases res with
      | error x => simp
      | ok ctx' =>
        have hle := unprocessedCount_le env (processFile_ok env fuel ctx e none ctx' hf).1
        exact ih ctx' (Nat.lt_of_le_of_lt hle hcount)

theorem inv_initialCtx : Inv initialCtx := by
  refine ⟨?_, ?_, ?_, ?_, ?_⟩ <;> simp [initialCtx]

theorem unprocessedCount_le_size (env : BuildEnv) (ctx : Ctx) :
    unprocessedCount env ctx ≤ env.fs.files.length := by
  unfold unprocessedCount
  calc ((env.fs.files.map Prod.fst).filter _).length
      ≤ (env.fs.files.map Prod.fst).length := List.length_filter_le _ _
    _ = env.fs.files.length := List.length_map _ _

/-- Claim C1: for every dependency graph reachable from the entry points —
multiple importers and cycles included — the traversal terminates (any fuel
beyond the filesystem size is never exhausted), each reachable module
identity enters the transform step and the outputs map at most once per
build session, and re-encountering a processed identity only records the
new importer edge and returns without re-entering transform. -/
theorem C1_traversal_terminates_and_visits_once (env : BuildEnv) :
    (∀ fuel : Nat, env.fs.files.length < fuel → build env fuel ≠ none) ∧
    (∀ (fuel : Nat) (r : Ctx) (evs : List BuildEvent),
      build env fuel = some (Except.ok (r, evs)) →
      r.transformed.Nodup ∧ (r.outputs.map Prod.fst).Nodup) ∧
    (∀ (fuel : Nat) (ctx : Ctx) (fp : String) (imp : Option String),
      fp ∈ ctx.processed →
      processFile env (fuel + 1) ctx fp imp =
        some (Except.ok (recordDep ctx imp fp))) := by
  refine ⟨?_, ?_, ?_⟩
  · intro fuel hlt hnone
    unfold build at hnone
    cases hre : resolveEntryPoints env.config with
    | error msg => rw [hre] at hnone; simp at hnone
    | ok entries =>
      rw [hre] at hnone
      try simp only [] at hnone
      cases hs : applyPluginHook (effectHooks env.plugins
          (fun p => p.buildStart)) "buildStart" () with
      | mk s1 sNames =>
        rw [hs] at hnone
        cases s1 with
        | error e => simp at hnone
        | ok sv =>
          try simp only [] at hnone
          cases hpe : processEntries env fuel initialCtx entries with
          | none =>
            refine processEntries_total env fuel entries initialCtx ?_ hpe
            exact Nat.lt_of_le_of_lt (unprocessedCount_le_size env initialCtx) hlt
          | some res =>
            rw [hpe] at hnone
            cases res with
            | error e => simp at hnone
            | ok ctx =>
              try simp only [] at hnone
              cases he : applyPluginHook (effectHooks env.plugins
                  (fun p => p.buildEnd)) "buildEnd" () with
              | mk e1 eNames =>
                rw [he] at hnone
                cases e1 with
                | error e => simp at hnone
                | ok ev =>
                  try simp only [] at hnone
                  cases hcb : closeBundleAll env.plugins with
                  | error pe => rw [hcb] at hnone; simp at hnone
                  | ok closes => rw [hcb] at hnone; simp at hnone
  · intro fuel r evs h
    unfold build at h
    cases hre : resolveEntryPoints env.config with
    | error msg => rw [hre] at h; simp at h
    | ok entries =>
      rw [hre] at h
      try simp only [] at h
      cases hs : applyPluginHook (effectHooks env.plugins
          (fun p => p.buildStart)) "buildStart" () with
      | mk s1 sNames =>
        rw [hs] at h
        cases s1 with
        | error e => simp at h
        | ok sv =>
          try simp only [] at h
          cases hpe : processEntries env fuel initialCtx entries with
          | none => rw [hpe] at h; simp at h
          | some res =>
            rw [hpe] at h
            cases res with
            | error e => simp at h
            | ok ctx =>
              try simp only [] at h
              cases he : applyPluginHook (effectHooks env.plugins
                  (fun p => p.buildEnd)) "buildEnd" () with
              | mk e1 eNames =>
                rw [he] at h
                cases e1 with
                | error e => simp at h
                | ok ev =>
                  try simp only [] at h
                  cases hcb : closeBundleAll env.plugins with
                  | error pe => rw [hcb] at h; simp at h
                  | ok closes =>
                    rw [hcb] at h
                    simp only [Option.some.injEq, Except.ok.injEq,
                      Prod.mk.injEq] at h
                    obtain ⟨rfl, -⟩ := h
                    have hinv : Inv ctx :=
                      (processEntries_ok env fuel entries initialCtx ctx hpe).2
                        inv_initialCtx
                    exact ⟨hinv.2.1, hinv.2.2.1⟩
  · intro fuel ctx fp imp hmem
    rw [processFile, if_pos hmem]

/-- Witness for C1 on the cyclic project a.ts ↔ b.ts: the build terminates,
both modules appear exactly once in the transform trace and the outputs map,
and re-visiting a processed module only records the importer edge. -/
theorem C1_traversal_terminates_and_visits_once_witness :
    build cycEnv 3 ≠ none ∧
    (∃ (r : Ctx) (evs : List BuildEvent),
      build cycEnv 3 = some (Except.ok (r, evs)) ∧
      r.outputs.map Prod.fst = ["/proj/a.ts", "/proj/b.ts"] ∧
      r.transformed = ["/proj/a.ts", "/proj/b.ts"] ∧
      r.transformed.Nodup ∧ (r.outputs.map Prod.fst).Nodup) ∧
    processFile cycEnv 1 ⟨[], ["/proj/a.ts"], [], [], [], []⟩ "/proj/a.ts"
        (some "/proj/b.ts") =
      some (Except.ok (recordDep ⟨[], ["/proj/a.ts"], [], [], [], []⟩
        (some "/proj/b.ts") "/proj/a.ts")) := by
  refine ⟨(C1_traversal_terminates_and_visits_once cycEnv).1 3 (by decide),
    ⟨_, _, rfl, by decide, by decide, ?_, ?_⟩,
    (C1_traversal_terminates_and_visits_once cycEnv).2.2 0 _ "/proj/a.ts"
      (some "/proj/b.ts") (by decide)⟩
  · exact ((C1_traversal_terminates_and_visits_once cycEnv).2.1 3 _ _ rfl).1
  · exact ((C1_traversal_terminates_and_visits_once cycEnv).2.1 3 _ _ rfl).2

theorem closeBundleAll_ok (plugins : List Plugin)
    (h : ∀ p ∈ plugins, ∀ r, p.closeBundle = some r → r = Except.ok ()) :
    closeBundleAll plugins = Except.ok (closeCalls plugins) := by
  induction plugins with
  | nil => rfl
  | cons p rest ih =>
    have hrest : ∀ q ∈ rest, ∀ r, q.closeBundle = some r → r = Except.ok () :=
      fun q hq => h q (List.mem_cons_of_mem _ hq)
    unfold closeBundleAll
    cases hp : p.closeBundle with
    | none =>
      simpa [closeCalls, List.filter_cons, hp] using ih hrest
    | some r =>
      have hr := h p (List.mem_cons_self p rest) r hp
      subst hr
      simp [closeCalls, List.filter_cons, hp, ih hrest, Except.map]

theorem writeList_no_maps (config : Config) :
    ∀ (l : List (String × Output)), (∀ fo ∈ l, fo.2.map = none) →
      (l.map (writeOneOutput config)).flatten =
        l.map (fun fo => BuildEvent.fileWrite
          (rewriteExt (joinPath (resolvePath config.cwd config.outDir)
            (relativeTo config.cwd fo.1))) fo.2.code) := by
  intro l
  induction l with
  | nil => intro _; rfl
  | cons fo rest ih =>
    intro h
    have hfo := h fo (List.mem_cons_self fo rest)
    have hrest := fun q hq => h q (List.mem_cons_of_mem _ hq)
    simp only [List.map_cons, List.flatten_cons, ih hrest]
    unfold writeOneOutput
    rw [hfo]
    rfl

theorem writeOutputs_no_maps (config : Config) (ctx : Ctx)
    (h : ∀ fo ∈ ctx.outputs, fo.2.map = none) :
    writeOutputs config ctx = simpleWriteEvents config ctx := by
  unfold writeOutputs simpleWriteEvents
  exact writeList_no_maps config ctx.outputs h

/-- Claim C4: a successful build() performs its top-level steps in order —
buildStart hooks first, then the whole traversal, then buildEnd with the
full identity-to-output mapping (its size recorded in the event), then one
materialized write per output at the output root with the relative path
preserved and source extensions rewritten, and finally one closeBundle call
per plugin that defines the hook. -/
theorem C4_build_top_level_order (env : BuildEnv) (fuel : Nat)
    (entries : List String) (sv ev : Option Unit) (sNames eNames : List String)
    (ctx : Ctx)
    (hre : resolveEntryPoints env.config = Except.ok entries)
    (hs : applyPluginHook (effectHooks env.plugins (fun p => p.buildStart))
      "buildStart" () = (Except.ok sv, sNames))
    (hpe : processEntries env fuel initialCtx entries = some (Except.ok ctx))
    (he : applyPluginHook (effectHooks env.plugins (fun p => p.buildEnd))
      "buildEnd" () = (Except.ok ev, eNames))
    (hcb : ∀ p ∈ env.plugins, ∀ r, p.closeBundle = some r → r = Except.ok ())
    (hnm : ∀ fo ∈ ctx.outputs, fo.2.map = none) :
    build env fuel = some (Except.ok (ctx,
      BuildEvent.buildStartHooks sNames ::
      BuildEvent.buildEndHooks eNames ctx.outputs.length ::
      (simpleWriteEvents env.config ctx ++ closeCalls env.plugins))) := by
  unfold build
  rw [hre]
  try simp only []
  rw [hs]
  try simp only []
  rw [hpe]
  try simp only []
  rw [he]
  try simp only []
  rw [closeBundleAll_ok env.plugins hcb]
  rw [writeOutputs_no_maps env.config ctx hnm]

/-- Witness for C4 on the example project (index.ts importing util.ts): the
event sequence is buildStart, buildEnd with an output map of size 2, exactly
two file writes mirroring the source paths with .ts rewritten to .js, and
the closeBundle call of the one plugin defining it. -/
theorem C4_build_top_level_order_witness :
    ∃ ctx : Ctx,
      processEntries closeEnv 5 initialCtx ["/proj/index.ts"] =
        some (Except.ok ctx) ∧
      ctx.outputs.length = 2 ∧
      build closeEnv 5 = some (Except.ok (ctx,
        BuildEvent.buildStartHooks [] ::
        BuildEvent.buildEndHooks [] 2 ::
        ([BuildEvent.fileWrite "/proj/dist/index.js" "import util from ./util",
          BuildEvent.fileWrite "/proj/dist/util.js" "export const x = 1"] ++
          [BuildEvent.closeBundleCall "cl"]))) := by
  refine ⟨_, rfl, rfl, ?_⟩
  have h := C4_build_top_level_order closeEnv 5 ["/proj/index.ts"] none none [] []
    _ rfl rfl rfl rfl
    (by
      intro p hp r hr
      simp only [closeEnv, closingPlugin, emptyPlugin, List.mem_singleton] at hp
      subst hp
      simp only [closeEnv, closingPlugin] at hr
      exact (Option.some.injEq _ _ ▸ hr).symm ▸ rfl)
    (by decide)
  exact h.trans rfl

/-- Claim C5: for every watcher change event (with the plugin notifications
succeeding), a change to a path with a script-like extension broadcasts an
update message whose modules list contains the changed path and which
carries the timestamp; any other change broadcasts exactly the bare reload
payload with no other fields; and the broadcast reaches every open client
connection. -/
theorem C5_watch_change_broadcast (plugins : List Plugin) (ts : Nat)
    (path : String) (clients : List ClientConn)
    (hok : notifyPluginsOfChange plugins = Except.ok ()) :
    (hasAcceptedUpdate path = true →
      onFileChange plugins ts path = Except.ok
        { type := "update", path := some path, timestamp := some ts,
          modules := some [path], message := none, stack := none }) ∧
    (hasAcceptedUpdate path = false →
      onFileChange plugins ts path = Except.ok reloadPayload) ∧
    (∀ (payload : HMRPayload), ∀ c ∈ clients, c.readyStateOpen = true →
      (c.id, payload) ∈ notifyClients clients payload) := by
  refine ⟨?_, ?_, ?_⟩
  · intro hA
    simp [onFileChange, hok, hA, getAffectedModules]
  · intro hA
    simp [onFileChange, hok, hA]
  · intro payload c hc hopen
    unfold notifyClients
    exact List.mem_map_of_mem _ (List.mem_filter.mpr ⟨hc, by simp [hopen]⟩)

/-- Witness for C5: a change to app.css broadcasts exactly the reload
payload, a change to app.ts broadcasts an update naming app.ts with the
timestamp, and the message reaches the open client. -/
theorem C5_watch_change_broadcast_witness :
    onFileChange [] 7 "app.css" = Except.ok reloadPayload ∧
    onFileChange [] 7 "app.ts" = Except.ok
      { type := "update", path := some "app.ts", timestamp := some 7,
        modules := some ["app.ts"], message := none, stack := none } ∧
    (1, reloadPayload) ∈ notifyClients [⟨1, true⟩, ⟨2, false⟩] reloadPayload := by
  refine ⟨?_, ?_, ?_⟩
  · exact (C5_watch_change_broadcast [] 7 "app.css" [] rfl).2.1 rfl
  · exact (C5_watch_change_broadcast [] 7 "app.ts" [] rfl).1 rfl
  · exact (C5_watch_change_broadcast [] 7 "app.ts" [⟨1, true⟩, ⟨2, false⟩] rfl).2.2
      reloadPayload ⟨1, true⟩ (by simp) rfl

theorem serveChain_append (fp content : String) :
    ∀ (ps qs : List Plugin) (s mid : String),
      serveChain ps fp content s = Except.ok mid →
      serveChain (ps ++ qs) fp content s = serveChain qs fp content mid := by
  intro ps
  induction ps with
  | nil =>
    intro qs s mid h
    simp [serveChain] at h
    subst h
    rfl
  | cons p rest ih =>
    intro qs s mid h
    simp only [List.cons_append, serveChain] at h ⊢
    cases hap : applyServeTransform p fp content s with
    | error e => rw [hap] at h; simp at h
    | ok next => rw [hap] at h; exact ih qs next mid h

/-- Claim C7: a dev-server request for a file with a script-like extension
answers with the body obtained by threading the file content through every
plugin's transform hook in plugin-list order — sequential composition (each
plugin receives the previous plugin's output as its input code, a null
return leaving it unchanged), not last-wins filtering: running a chain split
at any point equals running the first part and feeding its result to the
second. -/
theorem C7_request_sequential_transform (fs : FileSys) (cwd : String)
    (plugins : List Plugin) (pathname : String) (body : String)
    (hslash : strEnds pathname "/" = false)
    (hexists : fileExists fs (resolvePath cwd (strDrop pathname 1)) = true)
    (hext : strToLower (extName (resolvePath cwd (strDrop pathname 1))) = ".ts" ∨
      strToLower (extName (resolvePath cwd (strDrop pathname 1))) = ".tsx" ∨
      strToLower (extName (resolvePath cwd (strDrop pathname 1))) = ".jsx")
    (hchain : serveChain plugins (resolvePath cwd (strDrop pathname 1))
      (readFileFS fs (resolvePath cwd (strDrop pathname 1)))
      (readFileFS fs (resolvePath cwd (strDrop pathname 1))) = Except.ok body) :
    handleRequest fs cwd plugins pathname =
      Except.ok ⟨200, "application/javascript", body⟩ ∧
    (∀ (ps qs : List Plugin) (fp content s mid : String),
      serveChain ps fp content s = Except.ok mid →
      serveChain (ps ++ qs) fp content s = serveChain qs fp content mid) := by
  constructor
  · unfold handleRequest
    simp only [hslash, Bool.false_eq_true, if_false, hexists, Bool.not_true,
      Bool.false_and, Bool.and_self]
    rcases hext with hx | hx | hx <;>
      simp [hx, lookupAssoc, mimeTypes, hchain]
  · intro ps qs fp content s mid h
    exact serveChain_append fp content ps qs s mid h

/-- Witness for C7: serving /app.ts through two appending transform plugins
yields the sequential composition of both transforms applied to the file
content — not the last plugin's answer alone. -/
theorem C7_request_sequential_transform_witness :
    handleRequest ⟨[("/proj/app.ts", "code")]⟩ "/proj"
        [appendPlugin "A" "+a", appendPlugin "B" "+b"] "/app.ts" =
      Except.ok ⟨200, "application/javascript", "code+a+b"⟩ := by
  exact (C7_request_sequential_transform ⟨[("/proj/app.ts", "code")]⟩ "/proj"
    [appendPlugin "A" "+a", appendPlugin "B" "+b"] "/app.ts" "code+a+b"
    rfl rfl (Or.inl rfl) rfl).1

theorem lookupAssoc_setAssoc {α : Type} (l : List (String × α)) (k : String) (v : α) :
    lookupAssoc (setAssoc l k v) k = some v := by
  unfold setAssoc
  by_cases h : (l.find? (fun kv => kv.1 == k)).isSome
  · rw [if_pos h]
    induction l with
    | nil => simp at h
    | cons kv rest ih =>
      by_cases hk : kv.1 = k
      · simp [lookupAssoc, hk]
      · have h' : (rest.find? (fun kv => kv.1 == k)).isSome := by
          rw [List.find?_cons_of_neg] at h
          · exact h
          · simp [hk]
        simpa [lookupAssoc, hk, List.find?_cons_of_neg] using ih h'
  · rw [if_neg h]
    have hn : l.find? (fun kv => kv.1 == k) = none := by
      cases hf : l.find? (fun kv => kv.1 == k) with
      | none => rfl
      | some x => rw [hf] at h; simp at h
    unfold lookupAssoc
    rw [List.find?_append, hn]
    simp

/-- The exact result of processFile on an unprocessed module whose source is
missing or empty: the module is marked processed, the importer edge is
recorded, a warning is logged, and nothing else changes. -/
theorem processFile_missing_eq (env : BuildEnv) (fuel : Nat) (ctx : Ctx)
    (fp : String) (imp : Option String)
    (hmem : fp ∉ ctx.processed)
    (hc : (if fileExists env.fs fp then readFileFS env.fs fp else "") = "") :
    processFile env (fuel + 1) ctx fp imp =
      some (Except.ok { recordDep { ctx with processed := ctx.processed ++ [fp] } imp fp with
        warnings := (recordDep { ctx with processed := ctx.processed ++ [fp] } imp fp).warnings
          ++ ["Empty or missing file: " ++ fp] }) := by
  rw [processFile, if_neg hmem]
  simp only [hc, if_pos rfl]
  rfl

/-- Claim C8: a module whose source file is missing or empty is not fatal to
the build traversal — the event is logged as a warning, the module is
skipped (marked processed, importer edge recorded, nothing transformed) and
the loop over the remaining sibling dependencies continues; only an invalid
entry-point configuration is fatal, before any traversal begins. -/
theorem C8_missing_source_not_fatal :
    (∀ (env : BuildEnv) (fuel : Nat) (ctx : Ctx) (fp : String) (imp : Option String),
      fp ∉ ctx.processed →
      (if fileExists env.fs fp then readFileFS env.fs fp else "") = "" →
      processFile env (fuel + 1) ctx fp imp =
        some (Except.ok { recordDep { ctx with processed := ctx.processed ++ [fp] } imp fp with
          warnings := (recordDep { ctx with processed := ctx.processed ++ [fp] } imp fp).warnings
            ++ ["Empty or missing file: " ++ fp] })) ∧
    (∀ (step : Ctx → String → Option (Except TransformFailure Ctx))
        (ctx c' : Ctx) (dep : DependencyInfo) (rest : List DependencyInfo)
        (rr : String),
      dep.resolved = some rr → dep.isExternal = false → rr ≠ "" →
      step ctx rr = some (Except.ok c') →
      processDepsWith step ctx (dep :: rest) = processDepsWith step c' rest) ∧
    (∀ (env : BuildEnv) (fuel : Nat), env.config.entry = EntryConfig.invalid →
      build env fuel = some (Except.error (BuildFailure.invalidEntry
        "Invalid entry point configuration"))) := by
  refine ⟨?_, ?_, ?_⟩
  · intro env fuel ctx fp imp hmem hc
    exact processFile_missing_eq env fuel ctx fp imp hmem hc
  · intro step ctx c' dep rest rr hres hext hrr hstep
    conv_lhs => rw [processDepsWith]
    simp only [hres, hext, if_neg hrr, hstep]
  · intro env fuel hinv
    unfold build resolveEntryPoints
    rw [hinv]

/-- Witness for C8: processing the missing module /proj/gone.ts records it as
processed with a warning and succeeds; the whole build of the project whose
entry imports a missing file completes without error; and an invalid
entry-point configuration makes the build fail before traversal. -/
theorem C8_missing_source_not_fatal_witness :
    processFile missEnv 1 ⟨[], ["/proj/index.ts"], [], [], [], []⟩ "/proj/gone.ts"
        (some "/proj/index.ts") =
      some (Except.ok { recordDep
        { (⟨[], ["/proj/index.ts"], [], [], [], []⟩ : Ctx) with
          processed := ["/proj/index.ts"] ++ ["/proj/gone.ts"] }
        (some "/proj/index.ts") "/proj/gone.ts" with
        warnings := (recordDep
          { (⟨[], ["/proj/index.ts"], [], [], [], []⟩ : Ctx) with
            processed := ["/proj/index.ts"] ++ ["/proj/gone.ts"] }
          (some "/proj/index.ts") "/proj/gone.ts").warnings
          ++ ["Empty or missing file: " ++ "/proj/gone.ts"] }) ∧
    (∃ (r : Ctx) (evs : List BuildEvent),
      build missEnv 4 = some (Except.ok (r, evs))) ∧
    build invEnv 4 = some (Except.error (BuildFailure.invalidEntry
      "Invalid entry point configuration")) := by
  refine ⟨?_, ⟨_, _, rfl⟩, ?_⟩
  · exact C8_missing_source_not_fatal.1 missEnv 0 ⟨[], ["/proj/index.ts"], [], [], [], []⟩
      "/proj/gone.ts" (some "/proj/index.ts") (by decide) (by decide)
  · exact C8_missing_source_not_fatal.2.2 invEnv 4 rfl

/-- Claim C10: a module whose source is missing or empty at traversal time
is still added to the processed set and to its importer's dependency set,
but gets no entry in the outputs map or the module graph; consequently the
outputs map handed to buildEnd can be strictly smaller than the processed
set, as the build of the missing-import project shows. -/
theorem C10_missing_module_processed_but_not_output :
    (∀ (env : BuildEnv) (fuel : Nat) (ctx : Ctx) (fp imp : String),
      fp ∉ ctx.processed →
      (if fileExists env.fs fp then readFileFS env.fs fp else "") = "" →
      ∃ r : Ctx, processFile env (fuel + 1) ctx fp (some imp) = some (Except.ok r) ∧
        r.processed = ctx.processed ++ [fp] ∧
        (∃ deps', lookupAssoc r.dependencies imp = some deps' ∧ fp ∈ deps') ∧
        r.outputs = ctx.outputs ∧
        r.moduleGraph = ctx.moduleGraph) ∧
    (∃ (r : Ctx) (evs : List BuildEvent),
      build missEnv 4 = some (Except.ok (r, evs)) ∧
      r.outputs.length < r.processed.length) := by
  constructor
  · intro env fuel ctx fp imp hmem hc
    refine ⟨_, processFile_missing_eq env fuel ctx fp (some imp) hmem hc,
      ?_, ?_, ?_, ?_⟩
    · simp [recordDep_processed]
    · refine ⟨if fp ∈ (lookupAssoc ctx.dependencies imp).getD []
          then (lookupAssoc ctx.dependencies imp).getD []
          else (lookupAssoc ctx.dependencies imp).getD [] ++ [fp], ?_, ?_⟩
      · exact lookupAssoc_setAssoc ctx.dependencies imp _
      · by_cases hd : fp ∈ (lookupAssoc ctx.dependencies imp).getD []
        · rw [if_pos hd]; exact hd
        · rw [if_neg hd]
          exact List.mem_append_right _ (List.mem_singleton.mpr rfl)
    · simp [recordDep_outputs]
    · simp [recordDep_moduleGraph]
  · refine ⟨_, _, rfl, by decide⟩

/-- Witness for C10: after the entry of the missing-import project reaches
/proj/gone.ts, that identity is processed and recorded as a dependency of
the importer while outputs and module graph stay empty. -/
theorem C10_missing_module_processed_but_not_output_witness :
    ∃ r : Ctx, processFile missEnv 1 ⟨[], ["/proj/index.ts"], [], [], [], []⟩
        "/proj/gone.ts" (some "/proj/index.ts") = some (Except.ok r) ∧
      r.processed = ["/proj/index.ts"] ++ ["/proj/gone.ts"] ∧
      (∃ deps', lookupAssoc r.dependencies "/proj/index.ts" = some deps' ∧
        "/proj/gone.ts" ∈ deps') ∧
      r.outputs = [] ∧
      r.moduleGraph = [] := by
  exact C10_missing_module_processed_but_not_output.1 missEnv 0
    ⟨[], ["/proj/index.ts"], [], [], [], []⟩ "/proj/gone.ts" "/proj/index.ts"
    (by decide) (by decide)

/-- Counterexample to claim C9 as stated: after decline(), a future change
to the module does not fall back to a full page reload.  The server still
classifies app.ts as update-eligible by extension and broadcasts an update;
the client, whose registry no longer contains the module, ignores the update
entirely — no callbacks, no re-fetch, and in particular no page reload. -/
theorem C9_decline_counterexample :
    hasAcceptedUpdate "app.ts" = true ∧
    lookupAssoc (hotDecline (hotAccept (ensureHotModule ⟨[], []⟩ "app.ts")
      "app.ts" (some 0)) "app.ts").hotModules "app.ts" = none ∧
    updateModules (fun _ => true)
      (hotDecline (hotAccept (ensureHotModule ⟨[], []⟩ "app.ts") "app.ts" (some 0))
        "app.ts") ["app.ts"] 1 = [] ∧
    handleMessage (fun _ => true)
      (hotDecline (hotAccept (ensureHotModule ⟨[], []⟩ "app.ts") "app.ts" (some 0))
        "app.ts") 1
      { type := "update", path := some "app.ts", timestamp := some 1,
        modules := some ["app.ts"], message := none, stack := none } = [] := by
  refine ⟨rfl, rfl, rfl, rfl⟩

/-- Claim C9 as amended: decline() removes the module from the
update-eligible registry, and a future update message naming that module is
ignored by the client — no callbacks run, no re-fetch happens and no page
reload is triggered (rather than falling back to a full reload). -/
theorem C9_decline_removes_module :
    (∀ (st : ClientState) (p : String),
      lookupAssoc (hotDecline st p).hotModules p = none) ∧
    (∀ (io : String → Bool) (st : ClientState) (p : String) (t : Nat),
      lookupAssoc st.hotModules p = none →
      updateOneModule io st p t = []) := by
  constructor
  · intro st p
    unfold hotDecline lookupAssoc
    rw [List.find?_eq_none.mpr]
    · rfl
    · intro kv hkv
      have := List.of_mem_filter hkv
      simpa using this
  · intro io st p t h
    unfold updateOneModule
    rw [h]

/-- Witness for the amended C9: on a concrete registry holding app.ts with a
registered callback, decline removes the entry and a subsequent update for
app.ts produces no client action. -/
theorem C9_decline_removes_module_witness :
    lookupAssoc (hotDecline (hotAccept (ensureHotModule ⟨[], []⟩ "app.ts")
      "app.ts" (some 0)) "app.ts").hotModules "app.ts" = none ∧
    updateOneModule (fun _ => true)
      (hotDecline (hotAccept (ensureHotModule ⟨[], []⟩ "app.ts") "app.ts" (some 0))
        "app.ts") "app.ts" 1 = [] := by
  constructor
  · exact C9_decline_removes_module.1
      (hotAccept (ensureHotModule ⟨[], []⟩ "app.ts") "app.ts" (some 0)) "app.ts"
  · exact C9_decline_removes_module.2 (fun _ => true)
      (hotDecline (hotAccept (ensureHotModule ⟨[], []⟩ "app.ts") "app.ts" (some 0))
        "app.ts") "app.ts" 1
      (C9_decline_removes_module.1
        (hotAccept (ensureHotModule ⟨[], []⟩ "app.ts") "app.ts" (some 0)) "app.ts")

end AetherBuild
